import Mathlib

/-! hdmi4k: Bayer raw data recovered from two HDMI frames

A shallow embedding of `raw-via-hdmi/hdmi4k/hdmi4k.c`.

* The globals `rgbA`, `rgbB`, `raw`, `width`, `height` form the `State`.
  Buffers are total maps from an index to the 16-bit sample stored there.
* A C `int` is an `Int`; every signed addition and multiplication of the
  accumulator is followed by the two's complement wrap `wrap32`, C's `/` and
  `%` are `Int.tdiv` and `Int.tmod`.
* The functions on the `State` compute buffer indices as exact integers.
  The same index expressions are also evaluated at type `int`, with overflow
  as `none` (`recover_raw_data_reads32`, `recover_raw_data_write_indices32`);
  both agree when `4 * width * height` fits in an `int`.
* A run ends as an `Outcome`: a result, a failed `CHECK`, or undefined
  behaviour (`int` overflow, an access outside an allocated buffer).
* A store into a `uint16_t` cell reduces the value modulo 65536 (`store16`).
* The kernel table `filters` is copied from the source, labels included.
-/

namespace Hdmi4k

/-! ## Machine arithmetic and the clamp helpers -/

/-- Two's complement value of a signed 32-bit `int` holding the integer `v`. -/
def wrap32 (v : Int) : Int := (v + 2147483648) % 4294967296 - 2147483648

/-- Signed 32-bit addition. -/
def add32 (a b : Int) : Int := wrap32 (a + b)

/-- Signed 32-bit multiplication. -/
def mul32 (a b : Int) : Int := wrap32 (a * b)

/-- Conversion of an `int` to `uint16_t`, as done by a store into `raw`. -/
def store16 (v : Int) : Int := v % 65536

/-- `MIN(a,b)`, that is `_a < _b ? _a : _b`. -/
def MIN (a b : Int) : Int := if a < b then a else b

/-- `MAX(a,b)`, that is `_a > _b ? _a : _b`. -/
def MAX (a b : Int) : Int := if a > b then a else b

/-- `COERCE(x,lo,hi)`, that is `MAX(MIN((x),(hi)),(lo))`. -/
def COERCE (x lo hi : Int) : Int := MAX (MIN x hi) lo

/-- Successive values of the variable of `for (int i = lo; i < hi; i++)`. -/
def forRange (lo hi : Int) : List Int :=
  (List.range (hi - lo).toNat).map (fun (n : Nat) => lo + (n : Int))

/-! ## Program state -/

/-- The global image data of the program. -/
structure State where
  /-- HDMI frame A (width x height x 3, PPM order). -/
  rgbA : Int → Int
  /-- HDMI frame B. -/
  rgbB : Int → Int
  /-- Bayer raw image (double resolution). -/
  raw : Int → Int
  width : Int
  height : Int

/-- Effect of the assignments `raw[i] = v`, performed from left to right. -/
def do_writes (raw : Int → Int) : List (Int × Int) → Int → Int
  | [] => raw
  | w :: ws => do_writes (fun j => if j = w.1 then store16 w.2 else raw j) ws

/-! ## The kernel table -/

/-- Kernel set `[2]` of the source table, labelled `Red` there:
column parity, then frame (A, B), then predictor plane (red, green, blue), then the 3x3 kernel. -/
def filters_Red : List (List (List (List (List Int)))) :=
  [
    -- even columns:
    [
      -- from frame A:
      [
        -- from red (sum=0.08):
        [
          [   464,   -524,   -122],
          [  -326,    951,    387],
          [  -104,     21,    -83]
        ],
        -- from green (sum=0.00):
        [
          [ -8348,   8083,    -79],
          [  4527,  -3959,    230],
          [ -3018,   2623,    -30]
        ],
        -- from blue (sum=-0.03):
        [
          [  7664,  -7586,    -30],
          [ -3884,   3730,     18],
          [  2734,  -2820,    -44]
        ]
      ],
      -- from frame B:
      [
        -- from red (sum=1.01):
        [
          [  9398,  -8421,    -99],
          [  1177,   5070,    266],
          [ -3032,   3936,    -42]
        ],
        -- from green (sum=-0.08):
        [
          [ -9194,   8993,    -11],
          [ -1766,   1417,    -21],
          [  2541,  -2394,   -190]
        ],
        -- from blue (sum=0.01):
        [
          [  -347,    259,     90],
          [   802,   -711,    -37],
          [   498,   -359,    -93]
        ]
      ]
    ],
    -- odd columns:
    [
      -- from frame A:
      [
        -- from red (sum=0.84):
        [
          [  -165,   -194,    866],
          [   192,    263,   5460],
          [  -149,    -32,    654]
        ],
        -- from green (sum=-0.12):
        [
          [  -221,   5416,  -5716],
          [   263,  13406, -13528],
          [  -175,  -3649,   3261]
        ],
        -- from blue (sum=-0.01):
        [
          [    44,  -5604,   5608],
          [    43, -13116,  12935],
          [   -85,   3325,  -3198]
        ]
      ],
      -- from frame B:
      [
        -- from red (sum=0.25):
        [
          [   215,  -2989,   2957],
          [   526,   8633,  -7560],
          [   144,   1149,  -1040]
        ],
        -- from green (sum=0.04):
        [
          [    29,   2515,  -2704],
          [  -353,  -7354,   8103],
          [   -62,   -601,    763]
        ],
        -- from blue (sum=-0.01):
        [
          [    -1,    256,   -216],
          [   -76,    -43,    -64],
          [    21,   -276,    332]
        ]
      ]
    ]
  ]

/-- Kernel set `[3]` of the source table, labelled `Green1` there:
column parity, then frame (A, B), then predictor plane (red, green, blue), then the 3x3 kernel. -/
def filters_Green1 : List (List (List (List (List Int)))) :=
  [
    -- even columns:
    [
      -- from frame A:
      [
        -- from red (sum=0.07):
        [
          [    65,      4,    -66],
          [   590,   -145,    169],
          [  -257,    335,   -110]
        ],
        -- from green (sum=0.75):
        [
          [  5358,  -5380,   -148],
          [ -3296,   9438,    248],
          [  -291,    344,   -118]
        ],
        -- from blue (sum=0.15):
        [
          [ -5643,   5667,    -59],
          [  3132,  -2045,    105],
          [   366,   -371,    101]
        ]
      ],
      -- from frame B:
      [
        -- from red (sum=0.03):
        [
          [  -359,    326,    -96],
          [ -6351,   6546,    148],
          [  3276,  -3338,     58]
        ],
        -- from green (sum=0.09):
        [
          [   524,   -416,     40],
          [  6370,  -6356,    287],
          [ -3268,   3512,     85]
        ],
        -- from blue (sum=-0.10):
        [
          [  -236,    128,     31],
          [  -493,      3,    -92],
          [  -128,     82,    -73]
        ]
      ]
    ],
    -- odd columns:
    [
      -- from frame A:
      [
        -- from red (sum=0.33):
        [
          [     3,   -212,    158],
          [  -100,  -1503,   4434],
          [    63,   -172,     35]
        ],
        -- from green (sum=0.73):
        [
          [   -16,   5670,  -5584],
          [   217,  20874, -15239],
          [   -30,  -3319,   3400]
        ],
        -- from blue (sum=-0.01):
        [
          [    22,  -4978,   5059],
          [   140, -11578,  11114],
          [   -23,   3964,  -3788]
        ]
      ],
      -- from frame B:
      [
        -- from red (sum=-0.23):
        [
          [  -316,   7759,  -7823],
          [ -1557,   4812,  -4535],
          [  -340,    197,   -104]
        ],
        -- from green (sum=0.12):
        [
          [    38,  -7236,   7264],
          [   107,  -4937,   5463],
          [  -133,   -218,    607]
        ],
        -- from blue (sum=0.07):
        [
          [    -4,   -473,    467],
          [    98,    673,   -390],
          [   -25,    603,   -404]
        ]
      ]
    ]
  ]

/-- Kernel set `[0]` of the source table, labelled `Green2` there:
column parity, then frame (A, B), then predictor plane (red, green, blue), then the 3x3 kernel. -/
def filters_Green2 : List (List (List (List (List Int)))) :=
  [
    -- even columns:
    [
      -- from frame A:
      [
        -- from red (sum=-0.02):
        [
          [    17,    -87,    -27],
          [  -463,    497,    -26],
          [   189,   -221,     -3]
        ],
        -- from green (sum=0.05):
        [
          [ -2549,   2702,    -73],
          [  -277,    537,     40],
          [  3950,  -3976,     47]
        ],
        -- from blue (sum=-0.08):
        [
          [  2540,  -2501,   -130],
          [   881,   -987,   -292],
          [ -4222,   4176,   -153]
        ]
      ],
      -- from frame B:
      [
        -- from red (sum=0.11):
        [
          [   532,   -295,    -48],
          [  3374,  -2774,     35],
          [-10387,  10458,     16]
        ],
        -- from green (sum=0.80):
        [
          [  -515,    645,    -56],
          [ -4905,  11107,    190],
          [ 10386, -10213,   -100]
        ],
        -- from blue (sum=0.14):
        [
          [  -178,     95,    -34],
          [  2130,   -686,    -29],
          [  -161,    121,    -88]
        ]
      ]
    ],
    -- odd columns:
    [
      -- from frame A:
      [
        -- from red (sum=-0.18):
        [
          [    -8,   -360,    355],
          [  -113,    361,  -1594],
          [   138,     51,   -302]
        ],
        -- from green (sum=0.09):
        [
          [    85,   8568,  -8264],
          [   128,  -9194,   9167],
          [    49,  -1701,   1878]
        ],
        -- from blue (sum=0.04):
        [
          [    32,  -7766,   7688],
          [    79,   9079,  -8702],
          [   -74,   1793,  -1796]
        ]
      ],
      -- from frame B:
      [
        -- from red (sum=0.27):
        [
          [  -243,  14363, -14345],
          [   -68,    685,   2031],
          [  -133,  -2819,   2781]
        ],
        -- from green (sum=0.76):
        [
          [   -80, -14095,  14148],
          [   375,   8186,  -2135],
          [  -163,   3080,  -3086]
        ],
        -- from blue (sum=0.02):
        [
          [   -33,    157,    -43],
          [     9,   -589,    554],
          [   -19,     66,     52]
        ]
      ]
    ]
  ]

/-- Kernel set `[1]` of the source table, labelled `Blue` there:
column parity, then frame (A, B), then predictor plane (red, green, blue), then the 3x3 kernel. -/
def filters_Blue : List (List (List (List (List Int)))) :=
  [
    -- even columns:
    [
      -- from frame A:
      [
        -- from red (sum=0.00):
        [
          [   567,   -577,    174],
          [   114,    -44,   -384],
          [   -72,    260,    -16]
        ],
        -- from green (sum=-0.03):
        [
          [   617,   -393,    -14],
          [  8087,  -7671,   -710],
          [   741,   -868,    -47]
        ],
        -- from blue (sum=0.81):
        [
          [ -1344,   1352,    647],
          [ -7923,   8321,   4918],
          [  -735,    608,    793]
        ]
      ],
      -- from frame B:
      [
        -- from red (sum=-0.02):
        [
          [ -3509,   3389,    -38],
          [ -2787,   2812,    167],
          [ 14593, -14702,    -61]
        ],
        -- from green (sum=0.00):
        [
          [  3399,  -3717,   -259],
          [  2445,  -2093,    651],
          [-14566,  14225,    -60]
        ],
        -- from blue (sum=0.23):
        [
          [   174,   -115,     85],
          [   566,    104,    707],
          [   -48,    133,    312]
        ]
      ]
    ],
    -- odd columns:
    [
      -- from frame A:
      [
        -- from red (sum=0.06):
        [
          [   -51,   -155,    410],
          [    -8,   -281,    496],
          [    91,    223,   -236]
        ],
        -- from green (sum=0.04):
        [
          [   -29,   -688,   1069],
          [   -60,   1345,  -1225],
          [    18,  -1678,   1589]
        ],
        -- from blue (sum=0.13):
        [
          [   -63,   1469,  -1389],
          [   197,   -240,    956],
          [  -116,   1615,  -1395]
        ]
      ],
      -- from frame B:
      [
        -- from red (sum=-0.08):
        [
          [  -183,   6555,  -6596],
          [   -85,  -4934,   4731],
          [    20,  -5176,   5053]
        ],
        -- from green (sum=-0.07):
        [
          [   -11,  -6824,   6288],
          [    24,   3998,  -3497],
          [  -126,   5238,  -5642]
        ],
        -- from blue (sum=0.92):
        [
          [  -113,    850,    -39],
          [   211,   6028,   -225],
          [  -107,    710,    194]
        ]
      ]
    ]
  ]

/-- Table `filters[4][2][2][3][3][3]`; its designated initialisers are
`[2]` (Red), `[3]` (Green1), `[0]` (Green2) and `[1]` (Blue). -/
def filters_table (ch : Int) : List (List (List (List (List Int)))) :=
  if ch = 2 then filters_Red
  else if ch = 3 then filters_Green1
  else if ch = 0 then filters_Green2
  else if ch = 1 then filters_Blue
  else []

/-- Entry `filters[ch][c][k][p][i][j]`. -/
def filters (ch c k p i j : Int) : Int :=
  (((((filters_table ch).getD c.toNat []).getD k.toNat []).getD p.toNat []).getD
    i.toNat []).getD j.toNat 0

/-! ## recover_bayer_channel and recover_raw_data -/

/-- Kernel set used by `recover_bayer_channel(dx, dy)`: `dx%2 + (dy%2) * 2`. -/
def bayer_channel (dx dy : Int) : Int := Int.tmod dx 2 + Int.tmod dy 2 * 2

/-- Column parity index `c = !(x % 2)`. -/
def column_parity (x : Int) : Int := if Int.tmod x 2 = 0 then 1 else 0

/-- Array `rgb[2] = {rgbA, rgbB}`. -/
def rgb (s : State) (k : Int) : Int → Int := if k = 0 then s.rgbA else s.rgbB

/-- The nine-term expression added to `sum` for frame `k` and plane `p`. -/
def kernel_terms (s : State) (ch c k p x y : Int) : Int :=
  let w := s.width
  let filter := filters ch c k p
  let px := rgb s k
  add32 (add32 (add32 (add32 (add32 (add32 (add32 (add32
    (mul32 (filter 0 0) (px ((x-1)*3+p + (y-1)*w*3)))
    (mul32 (filter 0 1) (px (x*3+p + (y-1)*w*3))))
    (mul32 (filter 0 2) (px ((x+1)*3+p + (y-1)*w*3))))
    (mul32 (filter 1 0) (px ((x-1)*3+p + (y+0)*w*3))))
    (mul32 (filter 1 1) (px (x*3+p + (y+0)*w*3))))
    (mul32 (filter 1 2) (px ((x+1)*3+p + (y+0)*w*3))))
    (mul32 (filter 2 0) (px ((x-1)*3+p + (y+1)*w*3))))
    (mul32 (filter 2 1) (px (x*3+p + (y+1)*w*3))))
    (mul32 (filter 2 2) (px ((x+1)*3+p + (y+1)*w*3)))

/-- Value of `sum` after the loops over the frames `k` and the planes `p`. -/
def pixel_sum (s : State) (ch c x y : Int) : Int :=
  (forRange 0 2).foldl
    (fun sum k =>
      (forRange 0 3).foldl (fun sum p => add32 sum (kernel_terms s ch c k p x y)) sum)
    0

/-- The assignments to `raw` of `recover_bayer_channel(dx, dy)`, in program
order.  The loop body reads the frames only, never `raw`. -/
def recover_bayer_channel_writes (s : State) (dx dy : Int) : List (Int × Int) :=
  let ch := bayer_channel dx dy
  let w := s.width
  let h := s.height
  (forRange 1 (h-1)).flatMap fun y =>
    (forRange 1 (w-1)).map fun x =>
      let c := column_parity x
      let sum := pixel_sum s ch c x y
      (2*x+dx + (2*y+dy) * (2*s.width), COERCE (Int.tdiv sum 8192) 0 65535)

/-- Function `recover_bayer_channel(dx, dy)`. -/
def recover_bayer_channel (dx dy : Int) (s : State) : State :=
  { s with raw := do_writes s.raw (recover_bayer_channel_writes s dx dy) }

/-- The assignments to `raw` of the border loop of `recover_raw_data`. -/
def fill_border_writes (s : State) : List (Int × Int) :=
  (forRange 0 s.height).flatMap fun y =>
    (forRange 0 s.width).flatMap fun x =>
      if x = 0 ∨ y = 0 ∨ x = s.width-1 ∨ y = s.height-1 then
        [ (2*x   + (2*y  ) * (2*s.width), s.rgbB (3*x+1 + y*s.width*3)),
          (2*x+1 + (2*y+1) * (2*s.width), s.rgbA (3*x+1 + y*s.width*3)),
          (2*x   + (2*y+1) * (2*s.width), s.rgbB (3*x   + y*s.width*3)),
          (2*x+1 + (2*y  ) * (2*s.width), s.rgbB (3*x+2 + y*s.width*3)) ]
      else []

/-- The border loop of `recover_raw_data`. -/
def fill_border (s : State) : State :=
  { s with raw := do_writes s.raw (fill_border_writes s) }

/-- Function `recover_raw_data()`. -/
def recover_raw_data (s : State) : State :=
  let s := recover_bayer_channel 0 0 s
  let s := recover_bayer_channel 0 1 s
  let s := recover_bayer_channel 1 0 s
  let s := recover_bayer_channel 1 1 s
  fill_border s

/-- The sum the filter bank is meant to compute, in unbounded integers: over
frame `k`, plane `p` and kernel position `i`, `j`, the coefficient
`filters[ch][c][k][p][i][j]` times the sample of plane `p` of frame `k` at
column `x+j-1`, row `y+i-1`. -/
def exact_sum (s : State) (ch c x y : Int) : Int :=
  ((forRange 0 2).map fun k =>
    ((forRange 0 3).map fun p =>
      ((forRange 0 3).map fun i =>
        ((forRange 0 3).map fun j =>
          filters ch c k p i j * rgb s k ((x+j-1)*3 + p + (y+i-1)*s.width*3)).sum).sum).sum).sum

/-- Index in `raw` of cell `(dx, dy)` of the tile of input pixel `(x, y)`. -/
def raw_cell (s : State) (x y dx dy : Int) : Int := 2*x+dx + (2*y+dy) * (2*s.width)

/-- Pixel `(x, y)` lies on the outer edge of the input frame. -/
@[reducible] def on_border (s : State) (x y : Int) : Prop :=
  x = 0 ∨ y = 0 ∨ x = s.width-1 ∨ y = s.height-1

/-- Value the border loop copies into cell `(dx, dy)` of a border tile. -/
def border_value (s : State) (x y dx dy : Int) : Int :=
  if dx = 0 ∧ dy = 0 then s.rgbB (3*x+1 + y*s.width*3)
  else if dx = 1 ∧ dy = 1 then s.rgbA (3*x+1 + y*s.width*3)
  else if dx = 0 ∧ dy = 1 then s.rgbB (3*x + y*s.width*3)
  else s.rgbB (3*x+2 + y*s.width*3)

/-- Value `recover_bayer_channel(dx, dy)` computes for the interior pixel `(x, y)`. -/
def conv_value (s : State) (x y dx dy : Int) : Int :=
  COERCE (Int.tdiv (pixel_sum s (bayer_channel dx dy) (column_parity x) x y) 8192) 0 65535

/-- Both frames hold 16-bit samples. -/
def sixteen_bit (s : State) : Prop :=
  ∀ i, (0 ≤ s.rgbA i ∧ s.rgbA i ≤ 65535) ∧ (0 ≤ s.rgbB i ∧ s.rgbB i ≤ 65535)

/-- The pixels `(x, y)` visited by the loop nest of `recover_bayer_channel`
(`y` from 1 to `h-2`, `x` from 1 to `w-2`), in program order. -/
def interior_pixels (s : State) : List (Int × Int) :=
  (forRange 1 (s.height-1)).flatMap fun y => (forRange 1 (s.width-1)).map fun x => (x, y)

/-- All assignments to `raw` of one call of `recover_raw_data`, in program order. -/
def recover_raw_data_writes (s : State) : List (Int × Int) :=
  recover_bayer_channel_writes s 0 0 ++ recover_bayer_channel_writes s 0 1 ++
    recover_bayer_channel_writes s 1 0 ++ recover_bayer_channel_writes s 1 1 ++
    fill_border_writes s

/-! ## Concrete inputs -/

/-- Frame A of a 3x3 pair: green of pixel (0,2) is 65535, every other sample 0. -/
def ovfA : Int → Int := fun i => if i = 19 then 65535 else 0

/-- Frame B of a 3x3 pair: red of pixel (1,2), green of pixel (1,1) and green
of pixel (0,2) are 65535, every other sample 0. -/
def ovfB : Int → Int := fun i => if i = 13 ∨ i = 19 ∨ i = 21 then 65535 else 0

/-- A 3x3 frame pair with 16-bit samples; `raw` starts out as 7 everywhere. -/
def ovfState : State := ⟨ovfA, ovfB, fun _ => 7, 3, 3⟩

/-- A 3x3 frame pair with small samples: `i` in frame A, `2*i+1` in frame B. -/
def smallState : State :=
  ⟨fun i => if 0 ≤ i ∧ i < 27 then i else 0, fun i => if 0 ≤ i ∧ i < 27 then 2*i+1 else 0,
    fun _ => 0, 3, 3⟩

/-- A 1x1 frame pair: pixel (0,0) is (10, 100, 1000) in frame A and
(20, 200, 2000) in frame B. -/
def onePixelState : State :=
  ⟨fun i => if i = 0 then 10 else if i = 1 then 100 else if i = 2 then 1000 else 0,
   fun i => if i = 0 then 20 else if i = 1 then 200 else if i = 2 then 2000 else 0,
   fun _ => 0, 1, 1⟩

/-- A 4x4 frame pair of zero samples. -/
def fourByFourState : State := ⟨fun _ => 0, fun _ => 0, fun _ => 0, 4, 4⟩

/-! ## Arithmetic of type `int` with overflow made explicit

Signed overflow is undefined in C.  Where an index or a size is computed,
an `int` expression is evaluated to `some v` when every intermediate result
fits in 32 bits and to `none` when one does not. -/

/-- The result of an `int` operation whose exact result is `v`: `none` on
signed overflow. -/
def chk32 (v : Int) : Option Int :=
  if -2147483648 ≤ v ∧ v ≤ 2147483647 then some v else none

/-- Operator `+` at type `int`. -/
def cadd (a b : Option Int) : Option Int :=
  a.bind fun x => b.bind fun y => chk32 (x + y)

/-- Operator `-` at type `int`. -/
def csub (a b : Option Int) : Option Int :=
  a.bind fun x => b.bind fun y => chk32 (x - y)

/-- Operator `*` at type `int`. -/
def cmul (a b : Option Int) : Option Int :=
  a.bind fun x => b.bind fun y => chk32 (x * y)

/-- How a part of the program ends: with a result, with a failed `CHECK`
(the message is printed and the program exits with status 1), or with
behaviour that C leaves undefined (signed overflow, an access outside an
allocated buffer). -/
inductive Outcome (α : Type) where
  | ok (a : α)
  | fail (msg : String)
  | undefined
  deriving DecidableEq

/-! ## read_ppm

A file is the list of its bytes, `none` when it cannot be opened.  `malloc`
is taken to succeed. -/

/-- Library function `isdigit`. -/
def isdigit (c : Int) : Bool := decide (48 ≤ c ∧ c ≤ 57)

/-- Library function `isspace` (space, `\t`, `\n`, `\v`, `\f`, `\r`). -/
def isspace (c : Int) : Bool := decide (c = 32 ∨ (9 ≤ c ∧ c ≤ 13))

/-- Local variables of the header loop of `read_ppm`; `ub` records that an
`int` overflow has happened in `dim[nd]*10 + c - '0'`. -/
structure Header where
  dim0 : Int
  dim1 : Int
  dim2 : Int
  comment : Bool
  number : Bool
  error : Bool
  nd : Int
  ub : Bool

/-- Assignment `dim[nd] = v`. -/
def Header.setDim (h : Header) (v : Int) : Header :=
  if h.nd = 0 then { h with dim0 := v }
  else if h.nd = 1 then { h with dim1 := v }
  else { h with dim2 := v }

/-- Value of `dim[nd]`. -/
def Header.dim (h : Header) : Int :=
  if h.nd = 0 then h.dim0 else if h.nd = 1 then h.dim1 else h.dim2

/-- Body of the header loop for the character `c` just read. -/
def header_step (h : Header) (c : Int) : Header :=
  let h := if c = 35 then { h with comment := true } else h
  let h := if c = 10 then { h with comment := false } else h
  if h.comment then h
  else
    let h := if isdigit c then { h with number := true } else h
    if h.number then
      if isdigit c then
        match csub (cadd (cmul (some h.dim) (some 10)) (some c)) (some 48) with
        | some v => h.setDim v
        | none => { h with ub := true }
      else if isspace c then { h with number := false, nd := h.nd + 1 }
      else { h with error := true }
    else h

/-- Loop `while (!error && nd < 3 && (c = fgetc(fp)) != EOF)`: the final
variables and the unread rest of the file. -/
def header_loop (h : Header) : List Int → Header × List Int
  | [] => (h, [])
  | c :: rest =>
    if h.error = false ∧ h.nd < 3 then header_loop (header_step h c) rest
    else (h, c :: rest)

/-- Statement `if (fgetc(fp) != 'P' || fgetc(fp) != '6') error = 1;`: the
value of `error` and the unread rest of the file. -/
def header_magic : List Int → Bool × List Int
  | [] => (true, [])
  | c :: rest =>
    if c ≠ 80 then (true, rest)
    else
      match rest with
      | [] => (true, [])
      | c2 :: rest2 => (decide (c2 ≠ 54), rest2)

/-- A byte buffer filled with the bytes of a list. -/
def bytes_of (l : List Int) : Int → Int := fun i => if i < 0 then 0 else l.getD i.toNat 0

/-- Element `i` of a byte buffer read as `uint16_t` array (little-endian host). -/
def buf16 (buf : Int → Int) (i : Int) : Int := buf (2*i) + 256 * buf (2*i+1)

/-- Function `reverse_bytes_order(buf, count)` on a little-endian host. -/
def reverse_bytes_order (buf : Int → Int) (count : Int) : Int → Int :=
  (forRange 0 (Int.tdiv count 2)).foldl
    (fun buf i =>
      let x := buf16 buf i
      let buf1 : Int → Int := fun j => if j = 2*i+1 then x % 256 else buf j
      fun j => if j = 2*i then (x / 256) % 256 else buf1 j)
    buf

/-- Function `read_ppm`: the new values of `width` and `height` and the
frame stored through `prgb`, a buffer of `width*height*3` samples.
`slot_null` tells whether `*prgb` is null. -/
def read_ppm (file : Option (List Int)) (slot_null : Bool) :
    Outcome (Int × Int × (Int → Int)) :=
  match file with
  | none => Outcome.fail "could not open"
  | some bytes =>
    let m := header_magic bytes
    let r := header_loop ⟨0, 0, 0, false, false, m.1, 0, false⟩ m.2
    let h := r.1
    if h.ub then Outcome.undefined
    else if h.error ∨ h.nd < 3 then Outcome.fail "not a valid PGM file"
    else
      let width := h.dim0
      let height := h.dim1
      if slot_null = false then Outcome.fail "prgb"
      else
        match cmul (cmul (cmul (some width) (some height)) (some 2)) (some 3) with
        | none => Outcome.undefined
        | some n =>
          let data := r.2.take n.toNat
          let size : Int := data.length
          if size ≠ n then Outcome.fail "fread"
          else
            let rgb := reverse_bytes_order (bytes_of data) n
            Outcome.ok (width, height, buf16 rgb)

/-- Header `P6\n2 2\n65535\n` and 24 payload bytes: a 2x2 frame whose samples
are 1, 2, ..., 12 (big endian). -/
def file2x2 : List Int :=
  [80, 54, 10, 50, 32, 50, 10, 54, 53, 53, 51, 53, 10,
   0, 1, 0, 2, 0, 3, 0, 4, 0, 5, 0, 6, 0, 7, 0, 8, 0, 9, 0, 10, 0, 11, 0, 12]

/-- Header `P6\n1 1\n65535\n` and 6 payload bytes: a 1x1 frame with samples
(256, 512, 768). -/
def file1x1 : List Int :=
  [80, 54, 10, 49, 32, 49, 10, 54, 53, 53, 51, 53, 10, 1, 0, 2, 0, 3, 0]

/-- Header `P6\n0 0\n65535\n` without payload: a frame of width and height 0. -/
def file0x0 : List Int := [80, 54, 10, 48, 32, 48, 10, 54, 53, 53, 51, 53, 10]

/-! ## convert_to_linear

The table is built in double precision.  A `double` is a rational, an
infinity or a NaN.  The clamp and the conversion to `int` are modelled for
any double value `pre i` of `data * 4095 / gain + 128 - offset`; the value
itself is `lut_double`, the expression of the source with the rounding of
each operation to a `double` and the library function `pow` as parameters. -/

/-- Values of type `double`. -/
inductive Dbl where
  | fin (q : ℚ)
  | pinf
  | ninf
  | nan

/-- Comparison `a < b` of two doubles (false when either is a NaN). -/
def Dbl.lt : Dbl → Dbl → Bool
  | Dbl.fin a, Dbl.fin b => decide (a < b)
  | Dbl.fin _, Dbl.pinf => true
  | Dbl.ninf, Dbl.fin _ => true
  | Dbl.ninf, Dbl.pinf => true
  | _, _ => false

/-- `MIN(a,b)` at type `double`: `_a < _b ? _a : _b`. -/
def MINd (a b : Dbl) : Dbl := if Dbl.lt a b then a else b

/-- `MAX(a,b)` at type `double`: `_a > _b ? _a : _b`. -/
def MAXd (a b : Dbl) : Dbl := if Dbl.lt b a then a else b

/-- `COERCE(x,lo,hi)` at type `double`. -/
def COERCEd (x lo hi : Dbl) : Dbl := MAXd (MINd x hi) lo

/-- Conversion of a `double` to `int`: the fractional part is discarded.  A
value without an `int` image (NaN, infinity) is given `INT_MIN`. -/
def double_to_int : Dbl → Int
  | Dbl.fin q => if 0 ≤ q then ⌊q⌋ else -⌊-q⌋
  | _ => -2147483648

/-- Entry `lut[i]`: `COERCE(data * 4095 / gain + 128 - offset, 0, 4095)` stored
into an `int`. -/
def lut (pre : Int → Dbl) (i : Int) : Int :=
  double_to_int (COERCEd (pre i) (Dbl.fin 0) (Dbl.fin 4095))

/-- Function `convert_to_linear(raw, w, h)`: `raw[i] = lut[raw[i]]` for `i`
from 0 to `w*h - 1`. -/
def convert_to_linear (pre : Int → Dbl) (raw : Int → Int) (w h : Int) : Int → Int :=
  (forRange 0 (w * h)).foldl
    (fun raw i => fun j => if j = i then store16 (lut pre (raw i)) else raw j)
    raw

/-! ## Kernel statistics, pass order and memory accesses -/

/-- Sum of the 54 coefficients of kernel set `ch` for column parity `c`
(2 frames, 3 planes, 3x3 kernel positions). -/
def kernel_set_sum (ch c : Int) : Int :=
  ((forRange 0 2).map fun k =>
    ((forRange 0 3).map fun p =>
      ((forRange 0 3).map fun i =>
        ((forRange 0 3).map fun j => filters ch c k p i j).sum).sum).sum).sum

/-- Column parity index as the comment on the table documents it,
`(x/2) % 2` for the column `x` of the raw image, `x/2` being the HDMI column. -/
def documented_column_parity (x : Int) : Int := Int.tmod (Int.tdiv x 2) 2

/-- The calls `recover_bayer_channel(dx, dy)` made for a list of offsets, in
the order of the list. -/
def run_passes (l : List (Int × Int)) (s : State) : State :=
  l.foldl (fun s d => recover_bayer_channel d.1 d.2 s) s

/-- Indices of `rgb[k]` read by the nine-term expression for plane `p` at
pixel `(x, y)`, in the order of the expression. -/
def kernel_reads (s : State) (p x y : Int) : List Int :=
  let w := s.width
  [ (x-1)*3+p + (y-1)*w*3, x*3+p + (y-1)*w*3, (x+1)*3+p + (y-1)*w*3,
    (x-1)*3+p + (y+0)*w*3, x*3+p + (y+0)*w*3, (x+1)*3+p + (y+0)*w*3,
    (x-1)*3+p + (y+1)*w*3, x*3+p + (y+1)*w*3, (x+1)*3+p + (y+1)*w*3 ]

/-- The reads `rgb[k][i]` of one call of `recover_bayer_channel`, as pairs
`(k, i)` in program order (`k = 0` for frame A, `k = 1` for frame B). -/
def recover_bayer_channel_reads (s : State) : List (Int × Int) :=
  (forRange 1 (s.height-1)).flatMap fun y =>
    (forRange 1 (s.width-1)).flatMap fun x =>
      (forRange 0 2).flatMap fun k =>
        (forRange 0 3).flatMap fun p =>
          (kernel_reads s p x y).map fun i => (k, i)

/-- The reads of the border loop of `recover_raw_data`, as pairs `(k, i)`. -/
def fill_border_reads (s : State) : List (Int × Int) :=
  (forRange 0 s.height).flatMap fun y =>
    (forRange 0 s.width).flatMap fun x =>
      if x = 0 ∨ y = 0 ∨ x = s.width-1 ∨ y = s.height-1 then
        [ (1, 3*x+1 + y*s.width*3), (0, 3*x+1 + y*s.width*3),
          (1, 3*x + y*s.width*3), (1, 3*x+2 + y*s.width*3) ]
      else []

/-- All frame reads of one call of `recover_raw_data`, in program order. -/
def recover_raw_data_reads (s : State) : List (Int × Int) :=
  recover_bayer_channel_reads s ++ recover_bayer_channel_reads s ++
    recover_bayer_channel_reads s ++ recover_bayer_channel_reads s ++ fill_border_reads s

/-- A 3x3 frame pair of uniform gray: every sample of both frames is 32768. -/
def grayState : State := ⟨fun _ => 32768, fun _ => 32768, fun _ => 0, 3, 3⟩

/-- A byte buffer with bytes 1, 2, 3, 4, 5, 6 at indices 0 to 5, 0 elsewhere. -/
def sixBytes : Int → Int := bytes_of [1, 2, 3, 4, 5, 6]

/-! ## Memory accesses in `int` arithmetic

The index expressions of `recover_bayer_channel` and of the border loop,
evaluated at type `int`: an index is `none` when its computation overflows. -/

/-- Index expression `ex*3+p + ey*w*3` of a frame read; `ex` and `ey` are the
values of the column and the row expression. -/
def rgb_index32 (w : Int) (ex ey : Option Int) (p : Int) : Option Int :=
  cadd (cadd (cmul ex (some 3)) (some p)) (cmul (cmul ey (some w)) (some 3))

/-- Indices of `rgb[k]` read by the nine-term expression for plane `p` at
pixel `(x, y)`, in the order of the expression. -/
def kernel_reads32 (s : State) (p x y : Int) : List (Option Int) :=
  let w := s.width
  let xm := csub (some x) (some 1)
  let xp := cadd (some x) (some 1)
  let ym := csub (some y) (some 1)
  let y0 := cadd (some y) (some 0)
  let yp := cadd (some y) (some 1)
  [ rgb_index32 w xm ym p, rgb_index32 w (some x) ym p, rgb_index32 w xp ym p,
    rgb_index32 w xm y0 p, rgb_index32 w (some x) y0 p, rgb_index32 w xp y0 p,
    rgb_index32 w xm yp p, rgb_index32 w (some x) yp p, rgb_index32 w xp yp p ]

/-- The reads `rgb[k][i]` of one call of `recover_bayer_channel`, as pairs
`(k, i)` in program order. -/
def recover_bayer_channel_reads32 (s : State) : List (Int × Option Int) :=
  (forRange 1 (s.height-1)).flatMap fun y =>
    (forRange 1 (s.width-1)).flatMap fun x =>
      (forRange 0 2).flatMap fun k =>
        (forRange 0 3).flatMap fun p =>
          (kernel_reads32 s p x y).map fun i => (k, i)

/-- Index expression `2*x+dx + (2*y+dy) * (2*width)`. -/
def raw_index32 (w x y dx dy : Int) : Option Int :=
  cadd (cadd (cmul (some 2) (some x)) (some dx))
    (cmul (cadd (cmul (some 2) (some y)) (some dy)) (cmul (some 2) (some w)))

/-- The indices of `raw` assigned by `recover_bayer_channel(dx, dy)`. -/
def recover_bayer_channel_write_indices32 (s : State) (dx dy : Int) : List (Option Int) :=
  (forRange 1 (s.height-1)).flatMap fun y =>
    (forRange 1 (s.width-1)).map fun x => raw_index32 s.width x y dx dy

/-- Index expression `3*x + y*width*3` of the border loop. -/
def border_read32 (w x y : Int) : Option Int :=
  cadd (cmul (some 3) (some x)) (cmul (cmul (some y) (some w)) (some 3))

/-- Index expression `3*x+p + y*width*3` of the border loop, `p` being 1 or 2. -/
def border_read_plane32 (w x y p : Int) : Option Int :=
  cadd (cadd (cmul (some 3) (some x)) (some p)) (cmul (cmul (some y) (some w)) (some 3))

/-- The reads of the border loop of `recover_raw_data`, as pairs `(k, i)`. -/
def fill_border_reads32 (s : State) : List (Int × Option Int) :=
  (forRange 0 s.height).flatMap fun y =>
    (forRange 0 s.width).flatMap fun x =>
      if x = 0 ∨ y = 0 ∨ x = s.width-1 ∨ y = s.height-1 then
        [ (1, border_read_plane32 s.width x y 1), (0, border_read_plane32 s.width x y 1),
          (1, border_read32 s.width x y), (1, border_read_plane32 s.width x y 2) ]
      else []

/-- The indices of `raw` assigned by the border loop: `2*x + (2*y) * (2*width)`,
`2*x+1 + (2*y+1) * (2*width)`, `2*x + (2*y+1) * (2*width)` and
`2*x+1 + (2*y) * (2*width)`. -/
def fill_border_write_indices32 (s : State) : List (Option Int) :=
  (forRange 0 s.height).flatMap fun y =>
    (forRange 0 s.width).flatMap fun x =>
      if x = 0 ∨ y = 0 ∨ x = s.width-1 ∨ y = s.height-1 then
        let x2 := cmul (some 2) (some x)
        let y2 := cmul (some 2) (some y)
        let w2 := cmul (some 2) (some s.width)
        [ cadd x2 (cmul y2 w2),
          cadd (cadd x2 (some 1)) (cmul (cadd y2 (some 1)) w2),
          cadd x2 (cmul (cadd y2 (some 1)) w2),
          cadd (cadd x2 (some 1)) (cmul y2 w2) ]
      else []

/-- All frame reads of one call of `recover_raw_data`, in program order. -/
def recover_raw_data_reads32 (s : State) : List (Int × Option Int) :=
  recover_bayer_channel_reads32 s ++ recover_bayer_channel_reads32 s ++
    recover_bayer_channel_reads32 s ++ recover_bayer_channel_reads32 s ++
    fill_border_reads32 s

/-- All indices of `raw` assigned by one call of `recover_raw_data`. -/
def recover_raw_data_write_indices32 (s : State) : List (Option Int) :=
  recover_bayer_channel_write_indices32 s 0 0 ++ recover_bayer_channel_write_indices32 s 0 1 ++
    recover_bayer_channel_write_indices32 s 1 0 ++ recover_bayer_channel_write_indices32 s 1 1 ++
    fill_border_write_indices32 s

/-- An index is computed without overflow and lies inside a buffer of `size`
elements. -/
def index_ok (size : Int) (i : Option Int) : Bool :=
  match i with
  | none => false
  | some v => decide (0 ≤ v ∧ v < size)

/-- Every access of `recover_raw_data` is defined: frame A holds `sizeA`
samples, frame B `sizeB` samples and `raw` `sizeRaw` samples. -/
def accesses_defined (s : State) (sizeA sizeB sizeRaw : Int) : Bool :=
  (recover_raw_data_reads32 s).all
      (fun r => index_ok (if r.1 = 0 then sizeA else sizeB) r.2) &&
    (recover_raw_data_write_indices32 s).all (index_ok sizeRaw)

/-- A frame pair of width and height 23171 (all samples 0). -/
def bigState : State := ⟨fun _ => 0, fun _ => 0, fun _ => 0, 23171, 23171⟩

/-! ## The conversion of one frame pair -/

/-- The part of `main` that handles one `A.ppm` argument, up to and
including `recover_raw_data()`: both frames are read (frame B last, so
`width` and `height` are those of frame B, while frame A keeps the size of
its own file), `raw` is allocated with `width * height * 4` samples of
unknown contents `raw0`, and the filter bank runs. -/
def load_and_recover (fileA fileB : Option (List Int)) (raw0 : Int → Int) :
    Outcome State :=
  match read_ppm fileA true with
  | Outcome.fail e => Outcome.fail e
  | Outcome.undefined => Outcome.undefined
  | Outcome.ok (wa, ha, a) =>
    match read_ppm fileB true with
    | Outcome.fail e => Outcome.fail e
    | Outcome.undefined => Outcome.undefined
    | Outcome.ok (w, h, b) =>
      match cmul (cmul (some w) (some h)) (some 4) with
      | none => Outcome.undefined
      | some n =>
        if accesses_defined ⟨a, b, raw0, w, h⟩ (wa * ha * 3) (w * h * 3) n then
          Outcome.ok (recover_raw_data ⟨a, b, raw0, w, h⟩)
        else Outcome.undefined

/-- What a test can observe of a result: for a completed run `width`,
`height` and the first four cells of `raw`. -/
def observe (r : Outcome State) : Outcome (Int × Int × List Int) :=
  match r with
  | Outcome.ok s => Outcome.ok (s.width, s.height, [s.raw 0, s.raw 1, s.raw 2, s.raw 3])
  | Outcome.fail e => Outcome.fail e
  | Outcome.undefined => Outcome.undefined

/-! ## Lemmas on the arithmetic -/

theorem wrap32_add_left (a b : Int) : wrap32 (wrap32 a + b) = wrap32 (a + b) := by
  unfold wrap32; omega

theorem wrap32_add_right (a b : Int) : wrap32 (a + wrap32 b) = wrap32 (a + b) := by
  unfold wrap32; omega

theorem wrap32_of_fits (v : Int) (h : -2147483648 ≤ v ∧ v ≤ 2147483647) : wrap32 v = v := by
  unfold wrap32; omega

theorem wrap32_range (v : Int) : -2147483648 ≤ wrap32 v ∧ wrap32 v ≤ 2147483647 := by
  unfold wrap32; omega

theorem COERCE_range (x : Int) : 0 ≤ COERCE x 0 65535 ∧ COERCE x 0 65535 ≤ 65535 := by
  unfold COERCE MAX MIN; split_ifs <;> omega

theorem store16_of_range (v : Int) (h : 0 ≤ v ∧ v ≤ 65535) : store16 v = v := by
  unfold store16; omega

theorem store16_range (v : Int) : 0 ≤ store16 v ∧ store16 v ≤ 65535 := by
  unfold store16; omega

theorem mem_forRange (lo hi i : Int) : i ∈ forRange lo hi ↔ lo ≤ i ∧ i < hi := by
  unfold forRange
  simp only [List.mem_map, List.mem_range]
  constructor
  · rintro ⟨n, hn, rfl⟩
    omega
  · intro h
    exact ⟨(i - lo).toNat, by omega, by omega⟩

theorem forRange_0_2 : forRange 0 2 = [0, 1] := by decide

theorem forRange_0_3 : forRange 0 3 = [0, 1, 2] := by decide

theorem pixel_sum_eq (s : State) (ch c x y : Int) :
    pixel_sum s ch c x y = wrap32 (exact_sum s ch c x y) := by
  unfold pixel_sum exact_sum kernel_terms
  simp only [forRange_0_2, forRange_0_3, List.foldl, List.map, List.sum_cons, List.sum_nil,
    add32, mul32, wrap32_add_left, wrap32_add_right, rgb]
  congr 1
  simp [show ∀ a : Int, a + 2 - 1 = a + 1 from fun a => by omega]
  ring


/-! ## Lemmas on the assignments to `raw` -/

/-- When every assignment to index `q` in the list stores `v`, and either `q`
already holds `v` or the list assigns `q` at least once, `q` holds `v` in the end. -/
theorem do_writes_eq (ws : List (Int × Int)) (raw : Int → Int) (q v : Int)
    (hall : ∀ w ∈ ws, w.1 = q → store16 w.2 = v)
    (hex : raw q = v ∨ ∃ w ∈ ws, w.1 = q) :
    do_writes raw ws q = v := by
  induction ws generalizing raw with
  | nil =>
    rcases hex with h | ⟨w, hw, _⟩
    · exact h
    · cases hw
  | cons a ws ih =>
    unfold do_writes
    apply ih
    · intro w hw; exact hall w (List.mem_cons_of_mem _ hw)
    · by_cases ha : a.1 = q
      · left
        simp only [ha, if_true]
        exact hall a (List.mem_cons_self _ _) ha
      · rcases hex with h | ⟨w, hw, hwq⟩
        · left
          have : ¬ q = a.1 := fun h => ha h.symm
          simp only [this, if_false]
          exact h
        · right
          rcases List.mem_cons.mp hw with rfl | hw
          · exact absurd hwq ha
          · exact ⟨w, hw, hwq⟩

/-- An index no assignment of the list names keeps its value. -/
theorem do_writes_untouched (ws : List (Int × Int)) (raw : Int → Int) (q : Int)
    (hno : ∀ w ∈ ws, w.1 ≠ q) : do_writes raw ws q = raw q :=
  do_writes_eq ws raw q (raw q) (fun w hw hq => absurd hq (hno w hw)) (Or.inl rfl)

/-- Cells of the raw image are told apart by their index: a cell determines
its column and its row. -/
theorem raw_index_inj (m a b a' b' : Int) (ha : 0 ≤ a ∧ a < m) (ha' : 0 ≤ a' ∧ a' < m)
    (h : a + b * m = a' + b' * m) : a = a' ∧ b = b' := by
  have h1 : (a + b * m) % m = a := by
    rw [Int.add_mul_emod_self]; exact Int.emod_eq_of_lt ha.1 ha.2
  have h2 : (a' + b' * m) % m = a' := by
    rw [Int.add_mul_emod_self]; exact Int.emod_eq_of_lt ha'.1 ha'.2
  have haa : a = a' := by rw [← h1, ← h2, h]
  refine ⟨haa, ?_⟩
  have hm : m ≠ 0 := by omega
  have : b * m = b' * m := by omega
  exact Int.eq_of_mul_eq_mul_right hm this

theorem mem_recover_bayer_channel_writes (s : State) (dx dy : Int) (w : Int × Int) :
    w ∈ recover_bayer_channel_writes s dx dy ↔
      ∃ y, (1 ≤ y ∧ y < s.height - 1) ∧ ∃ x, (1 ≤ x ∧ x < s.width - 1) ∧
        w = (raw_cell s x y dx dy, conv_value s x y dx dy) := by
  unfold recover_bayer_channel_writes raw_cell conv_value
  simp only [List.mem_flatMap, List.mem_map, mem_forRange]
  constructor
  · rintro ⟨y, hy, x, hx, rfl⟩; exact ⟨y, hy, x, hx, rfl⟩
  · rintro ⟨y, hy, x, hx, rfl⟩; exact ⟨y, hy, x, hx, rfl⟩

theorem mem_fill_border_writes (s : State) (w : Int × Int) :
    w ∈ fill_border_writes s ↔
      ∃ y, (0 ≤ y ∧ y < s.height) ∧ ∃ x, (0 ≤ x ∧ x < s.width) ∧ on_border s x y ∧
        (w = (raw_cell s x y 0 0, border_value s x y 0 0) ∨
         w = (raw_cell s x y 1 1, border_value s x y 1 1) ∨
         w = (raw_cell s x y 0 1, border_value s x y 0 1) ∨
         w = (raw_cell s x y 1 0, border_value s x y 1 0)) := by
  unfold fill_border_writes raw_cell border_value on_border
  simp only [List.mem_flatMap, mem_forRange]
  constructor
  · rintro ⟨y, hy, x, hx, hw⟩
    refine ⟨y, hy, x, hx, ?_⟩
    split_ifs at hw with hb
    · refine ⟨hb, ?_⟩
      simpa using hw
    · cases hw
  · rintro ⟨y, hy, x, hx, hb, hw⟩
    refine ⟨y, hy, x, hx, ?_⟩
    rw [if_pos hb]
    simpa using hw


theorem raw_cell_inj (s : State) (x y dx dy x' y' dx' dy' : Int)
    (hx : 0 ≤ x ∧ x < s.width) (hx' : 0 ≤ x' ∧ x' < s.width)
    (hdx : dx = 0 ∨ dx = 1) (hdy : dy = 0 ∨ dy = 1)
    (hdx' : dx' = 0 ∨ dx' = 1) (hdy' : dy' = 0 ∨ dy' = 1)
    (h : raw_cell s x y dx dy = raw_cell s x' y' dx' dy') :
    x = x' ∧ y = y' ∧ dx = dx' ∧ dy = dy' := by
  unfold raw_cell at h
  have := raw_index_inj (2 * s.width) (2*x+dx) (2*y+dy) (2*x'+dx') (2*y'+dy')
    (by omega) (by omega) h
  omega

theorem conv_value_range (s : State) (x y dx dy : Int) :
    0 ≤ conv_value s x y dx dy ∧ conv_value s x y dx dy ≤ 65535 :=
  COERCE_range _

/-- Effect of one pass `recover_bayer_channel(dx', dy')` on a cell of the raw image. -/
theorem recover_bayer_channel_raw (s : State) (dx' dy' x y dx dy : Int)
    (hx : 0 ≤ x ∧ x < s.width)
    (hdx : dx = 0 ∨ dx = 1) (hdy : dy = 0 ∨ dy = 1)
    (hdx' : dx' = 0 ∨ dx' = 1) (hdy' : dy' = 0 ∨ dy' = 1) :
    (recover_bayer_channel dx' dy' s).raw (raw_cell s x y dx dy) =
      if (1 ≤ x ∧ x < s.width - 1) ∧ (1 ≤ y ∧ y < s.height - 1) ∧ dx = dx' ∧ dy = dy' then
        conv_value s x y dx dy
      else s.raw (raw_cell s x y dx dy) := by
  unfold recover_bayer_channel
  simp only
  split_ifs with hc
  · obtain ⟨hxi, hyi, rfl, rfl⟩ := hc
    apply do_writes_eq
    · intro w hw hq
      obtain ⟨y', hy', x', hx', rfl⟩ := (mem_recover_bayer_channel_writes s dx dy w).mp hw
      have := raw_cell_inj s x' y' dx dy x y dx dy (by omega) hx hdx hdy hdx hdy hq
      obtain ⟨rfl, rfl, -, -⟩ := this
      exact store16_of_range _ (conv_value_range s x' y' dx dy)
    · right
      exact ⟨_, (mem_recover_bayer_channel_writes s dx dy _).mpr ⟨y, hyi, x, hxi, rfl⟩, rfl⟩
  · apply do_writes_untouched
    intro w hw hq
    obtain ⟨y', hy', x', hx', rfl⟩ := (mem_recover_bayer_channel_writes s dx' dy' w).mp hw
    have := raw_cell_inj s x' y' dx' dy' x y dx dy (by omega) hx hdx' hdy' hdx hdy hq
    obtain ⟨rfl, rfl, rfl, rfl⟩ := this
    exact hc ⟨hx', hy', rfl, rfl⟩

/-- Effect of the border loop on a cell of the raw image. -/
theorem fill_border_raw (s : State) (x y dx dy : Int)
    (hx : 0 ≤ x ∧ x < s.width)
    (hdx : dx = 0 ∨ dx = 1) (hdy : dy = 0 ∨ dy = 1) :
    (fill_border s).raw (raw_cell s x y dx dy) =
      if (0 ≤ y ∧ y < s.height) ∧ on_border s x y then store16 (border_value s x y dx dy)
      else s.raw (raw_cell s x y dx dy) := by
  unfold fill_border
  simp only
  split_ifs with hc
  · obtain ⟨hy, hb⟩ := hc
    apply do_writes_eq
    · intro w hw hq
      obtain ⟨y', hy', x', hx', -, hw'⟩ := (mem_fill_border_writes s w).mp hw
      rcases hw' with rfl | rfl | rfl | rfl
      all_goals
        have := raw_cell_inj s x' y' _ _ x y dx dy hx' hx (by omega) (by omega) hdx hdy hq
        obtain ⟨rfl, rfl, rfl, rfl⟩ := this
        rfl
    · right
      have hmem := fun w => (mem_fill_border_writes s w).mpr
      rcases hdx with rfl | rfl <;> rcases hdy with rfl | rfl
      · exact ⟨_, hmem _ ⟨y, hy, x, hx, hb, Or.inl rfl⟩, rfl⟩
      · exact ⟨_, hmem _ ⟨y, hy, x, hx, hb, Or.inr (Or.inr (Or.inl rfl))⟩, rfl⟩
      · exact ⟨_, hmem _ ⟨y, hy, x, hx, hb, Or.inr (Or.inr (Or.inr rfl))⟩, rfl⟩
      · exact ⟨_, hmem _ ⟨y, hy, x, hx, hb, Or.inr (Or.inl rfl)⟩, rfl⟩
  · apply do_writes_untouched
    intro w hw hq
    obtain ⟨y', hy', x', hx', hb, hw'⟩ := (mem_fill_border_writes s w).mp hw
    rcases hw' with rfl | rfl | rfl | rfl
    all_goals
      have := raw_cell_inj s x' y' _ _ x y dx dy hx' hx (by omega) (by omega) hdx hdy hq
      obtain ⟨rfl, rfl, -, -⟩ := this
      exact hc ⟨hy', hb⟩

theorem raw_cell_pass (s : State) (dx' dy' x y dx dy : Int) :
    raw_cell (recover_bayer_channel dx' dy' s) x y dx dy = raw_cell s x y dx dy := rfl

theorem conv_value_pass (s : State) (dx' dy' x y dx dy : Int) :
    conv_value (recover_bayer_channel dx' dy' s) x y dx dy = conv_value s x y dx dy := rfl

theorem border_value_pass (s : State) (dx' dy' x y dx dy : Int) :
    border_value (recover_bayer_channel dx' dy' s) x y dx dy = border_value s x y dx dy := rfl

theorem width_pass (s : State) (dx' dy' : Int) :
    (recover_bayer_channel dx' dy' s).width = s.width := rfl

theorem height_pass (s : State) (dx' dy' : Int) :
    (recover_bayer_channel dx' dy' s).height = s.height := rfl

theorem on_border_pass (s : State) (dx' dy' x y : Int) :
    on_border (recover_bayer_channel dx' dy' s) x y ↔ on_border s x y := Iff.rfl

/-- Every cell of the raw image after `recover_raw_data`: a border tile holds
the copied samples, an interior tile the clamped filter results. -/
theorem recover_raw_data_raw (s : State) (x y dx dy : Int)
    (hx : 0 ≤ x ∧ x < s.width) (hy : 0 ≤ y ∧ y < s.height)
    (hdx : dx = 0 ∨ dx = 1) (hdy : dy = 0 ∨ dy = 1) :
    (recover_raw_data s).raw (raw_cell s x y dx dy) =
      if on_border s x y then store16 (border_value s x y dx dy)
      else conv_value s x y dx dy := by
  have e1 := recover_bayer_channel_raw s 0 0 x y dx dy hx hdx hdy (Or.inl rfl) (Or.inl rfl)
  have e2 := recover_bayer_channel_raw (recover_bayer_channel 0 0 s) 0 1 x y dx dy hx hdx hdy
    (Or.inl rfl) (Or.inr rfl)
  have e3 := recover_bayer_channel_raw (recover_bayer_channel 0 1 (recover_bayer_channel 0 0 s))
    1 0 x y dx dy hx hdx hdy (Or.inr rfl) (Or.inl rfl)
  have e4 := recover_bayer_channel_raw
    (recover_bayer_channel 1 0 (recover_bayer_channel 0 1 (recover_bayer_channel 0 0 s)))
    1 1 x y dx dy hx hdx hdy (Or.inr rfl) (Or.inr rfl)
  have e5 := fill_border_raw
    (recover_bayer_channel 1 1
      (recover_bayer_channel 1 0 (recover_bayer_channel 0 1 (recover_bayer_channel 0 0 s))))
    x y dx dy hx hdx hdy
  simp only [raw_cell_pass, conv_value_pass, border_value_pass, width_pass, height_pass,
    on_border_pass] at e1 e2 e3 e4 e5
  unfold recover_raw_data
  simp only
  rw [e5]
  by_cases hb : on_border s x y
  · rw [if_pos ⟨hy, hb⟩, if_pos hb]
  · rw [if_neg (fun h => hb h.2), if_neg hb, e4, e3, e2, e1]
    have hi : (1 ≤ x ∧ x < s.width - 1) ∧ (1 ≤ y ∧ y < s.height - 1) := by
      unfold on_border at hb
      omega
    rcases hdx with rfl | rfl <;> rcases hdy with rfl | rfl <;> simp [hi]


theorem do_writes_append (a b : List (Int × Int)) (raw : Int → Int) :
    do_writes raw (a ++ b) = do_writes (do_writes raw a) b := by
  induction a generalizing raw with
  | nil => rfl
  | cons w ws ih => exact ih _

theorem recover_raw_data_eq_do_writes (s : State) :
    (recover_raw_data s).raw = do_writes s.raw (recover_raw_data_writes s) := by
  unfold recover_raw_data_writes
  simp only [do_writes_append]
  rfl

/-- For the clamp to `[0, 65535]`, C's truncating division and the floor
division by 8192 give the same result. -/
theorem COERCE_tdiv_8192 (v : Int) :
    COERCE (Int.tdiv v 8192) 0 65535 = COERCE (v / 8192) 0 65535 := by
  rcases le_or_lt 0 v with h | h
  · rw [Int.tdiv_eq_ediv h (by norm_num)]
  · have h1 : Int.tdiv v 8192 ≤ 0 := by
      have h0 : 0 ≤ Int.tdiv (-v) 8192 := Int.tdiv_nonneg (by omega) (by norm_num)
      rw [Int.neg_tdiv] at h0
      omega
    have h2 : v / 8192 < 0 := Int.ediv_neg' h (by norm_num)
    unfold COERCE MAX MIN
    split_ifs <;> omega

theorem bayer_channel_eq (dx dy : Int) (hdx : dx = 0 ∨ dx = 1) (hdy : dy = 0 ∨ dy = 1) :
    bayer_channel dx dy = dx + 2 * dy := by
  rcases hdx with rfl | rfl <;> rcases hdy with rfl | rfl <;> decide

theorem column_parity_eq (x : Int) : column_parity x = if x % 2 = 0 then 1 else 0 := by
  unfold column_parity
  have : Int.tmod x 2 = 0 ↔ x % 2 = 0 :=
    ⟨fun h => Int.emod_eq_zero_of_dvd (Int.dvd_of_tmod_eq_zero h),
     fun h => Int.tmod_eq_zero_of_dvd (Int.dvd_of_emod_eq_zero h)⟩
  simp only [this]

/-- Interior samples, as long as the exact 54-term sum fits a signed 32-bit
`int`: the sample left at raw position `(2x+dx, 2y+dy)` is the exact sum,
divided by 8192 and clamped to `[0, 65535]`, with kernel set `dx + 2*dy` and
column parity 1 for even `x`, 0 for odd `x`. -/
theorem recover_raw_data_interior (s : State) (x y dx dy : Int)
    (hx : 1 ≤ x ∧ x ≤ s.width - 2) (hy : 1 ≤ y ∧ y ≤ s.height - 2)
    (hdx : dx = 0 ∨ dx = 1) (hdy : dy = 0 ∨ dy = 1)
    (hfit : -2147483648 ≤ exact_sum s (dx + 2*dy) (if x % 2 = 0 then 1 else 0) x y ∧
      exact_sum s (dx + 2*dy) (if x % 2 = 0 then 1 else 0) x y ≤ 2147483647) :
    (recover_raw_data s).raw (2*x+dx + (2*y+dy) * (2*s.width)) =
      COERCE (exact_sum s (dx + 2*dy) (if x % 2 = 0 then 1 else 0) x y / 8192) 0 65535 := by
  have h := recover_raw_data_raw s x y dx dy (by omega) (by omega) hdx hdy
  unfold raw_cell at h
  rw [h, if_neg (by unfold on_border; omega)]
  unfold conv_value
  rw [pixel_sum_eq, bayer_channel_eq dx dy hdx hdy, column_parity_eq, wrap32_of_fits _ hfit,
    COERCE_tdiv_8192]

set_option maxRecDepth 100000 in
theorem recover_raw_data_interior_witness :
    (recover_raw_data smallState).raw (2*1+0 + (2*1+0) * (2*smallState.width)) =
      COERCE (exact_sum smallState (0 + 2*0) (if (1:Int) % 2 = 0 then 1 else 0) 1 1 / 8192)
        0 65535 :=
  recover_raw_data_interior smallState 1 1 0 0 (by decide) (by decide) (by decide) (by decide)
    (by decide)


/-! ## Claims on the filter bank -/

set_option maxRecDepth 100000 in
/-- C1, at a 3x3 frame pair with 16-bit samples: the exact 54-term sum of the
interior pixel (1,1) for cell (0,0) is 2352772035, so its quotient by 8192
clamps to 65535, but the 32-bit accumulator wraps and `recover_raw_data`
leaves 0 at raw position (2,2). -/
theorem interior_sample_differs_on_overflow :
    exact_sum ovfState (0 + 2*0) (if (1:Int) % 2 = 0 then 1 else 0) 1 1 = 2352772035 ∧
    COERCE (exact_sum ovfState (0 + 2*0) (if (1:Int) % 2 = 0 then 1 else 0) 1 1 / 8192)
      0 65535 = 65535 ∧
    (recover_raw_data ovfState).raw (2*1+0 + (2*1+0) * (2*ovfState.width)) = 0 ∧
    (recover_raw_data ovfState).raw (2*1+0 + (2*1+0) * (2*ovfState.width)) ≠
      COERCE (exact_sum ovfState (0 + 2*0) (if (1:Int) % 2 = 0 then 1 else 0) 1 1 / 8192)
        0 65535 := by
  decide

/-- Frames of `ovfState` hold 16-bit samples. -/
theorem ovfState_sixteen_bit : sixteen_bit ovfState := by
  intro i
  simp only [ovfState, ovfA, ovfB]
  split_ifs <;> omega

/-- C2, counterexample: in a 1x1 frame pair the cell of channel index 3
(labelled Green1 in the kernel table) ends up with frame A's green sample,
100, not with frame B's, 200; the cell of channel index 0 (labelled Green2)
ends up with frame B's green sample, not with frame A's. -/
theorem border_green_labels_swapped :
    bayer_channel 1 1 = 3 ∧ bayer_channel 0 0 = 0 ∧
    (recover_raw_data onePixelState).raw (raw_cell onePixelState 0 0 1 1) = 100 ∧
    (recover_raw_data onePixelState).raw (raw_cell onePixelState 0 0 1 1) ≠
      onePixelState.rgbB (3*0+1 + 0*onePixelState.width*3) ∧
    (recover_raw_data onePixelState).raw (raw_cell onePixelState 0 0 0 0) = 200 ∧
    (recover_raw_data onePixelState).raw (raw_cell onePixelState 0 0 0 0) ≠
      onePixelState.rgbA (3*0+1 + 0*onePixelState.width*3) := by
  decide

/-- C2, amended: after `recover_raw_data` the four cells of a border tile,
named by channel index `dx%2 + 2*(dy%2)`, hold direct copies: index 3 (Green1
in the kernel table) frame A's green sample, index 0 (Green2) frame B's green
sample, index 2 (Red) frame B's red sample, index 1 (Blue) frame B's blue
sample. -/
theorem border_tile_by_channel (s : State) (x y dx dy : Int) (h16 : sixteen_bit s)
    (hx : 0 ≤ x ∧ x < s.width) (hy : 0 ≤ y ∧ y < s.height)
    (hb : x = 0 ∨ y = 0 ∨ x = s.width - 1 ∨ y = s.height - 1)
    (hdx : dx = 0 ∨ dx = 1) (hdy : dy = 0 ∨ dy = 1) :
    (bayer_channel dx dy = 3 →
      (recover_raw_data s).raw (2*x+dx + (2*y+dy) * (2*s.width)) = s.rgbA (3*x+1 + y*s.width*3)) ∧
    (bayer_channel dx dy = 0 →
      (recover_raw_data s).raw (2*x+dx + (2*y+dy) * (2*s.width)) = s.rgbB (3*x+1 + y*s.width*3)) ∧
    (bayer_channel dx dy = 2 →
      (recover_raw_data s).raw (2*x+dx + (2*y+dy) * (2*s.width)) = s.rgbB (3*x + y*s.width*3)) ∧
    (bayer_channel dx dy = 1 →
      (recover_raw_data s).raw (2*x+dx + (2*y+dy) * (2*s.width)) = s.rgbB (3*x+2 + y*s.width*3)) := by
  have h := recover_raw_data_raw s x y dx dy hx hy hdx hdy
  unfold raw_cell at h
  rw [if_pos hb] at h
  rw [h]
  have hA := fun i => store16_of_range _ (h16 i).1
  have hB := fun i => store16_of_range _ (h16 i).2
  rw [bayer_channel_eq dx dy hdx hdy]
  rcases hdx with rfl | rfl <;> rcases hdy with rfl | rfl <;>
    simp [border_value, hA, hB]

/-- The frames of `onePixelState` hold 16-bit samples. -/
theorem onePixelState_sixteen_bit : sixteen_bit onePixelState := by
  intro i
  simp only [onePixelState]
  split_ifs <;> omega

/-- C2, amended claim at the 1x1 frame pair, cell (1,1). -/
theorem border_tile_by_channel_witness :
    (bayer_channel 1 1 = 3 →
      (recover_raw_data onePixelState).raw (2*0+1 + (2*0+1) * (2*onePixelState.width)) =
        onePixelState.rgbA (3*0+1 + 0*onePixelState.width*3)) ∧
    (bayer_channel 1 1 = 0 →
      (recover_raw_data onePixelState).raw (2*0+1 + (2*0+1) * (2*onePixelState.width)) =
        onePixelState.rgbB (3*0+1 + 0*onePixelState.width*3)) ∧
    (bayer_channel 1 1 = 2 →
      (recover_raw_data onePixelState).raw (2*0+1 + (2*0+1) * (2*onePixelState.width)) =
        onePixelState.rgbB (3*0 + 0*onePixelState.width*3)) ∧
    (bayer_channel 1 1 = 1 →
      (recover_raw_data onePixelState).raw (2*0+1 + (2*0+1) * (2*onePixelState.width)) =
        onePixelState.rgbB (3*0+2 + 0*onePixelState.width*3)) :=
  border_tile_by_channel onePixelState 0 0 1 1 onePixelState_sixteen_bit (by decide) (by decide)
    (by decide) (by decide) (by decide)

/-- C3, counterexample: the kernel sets used for the offsets (0,0), (1,0),
(0,1), (1,1) are not 2, 3, 0, 1. -/
theorem channel_index_not_2301 :
    ¬ (bayer_channel 0 0 = 2 ∧ bayer_channel 1 0 = 3 ∧ bayer_channel 0 1 = 0 ∧
        bayer_channel 1 1 = 1) := by
  decide

/-- C3, amended: `recover_bayer_channel(dx, dy)` uses kernel set 0 (Green2)
for (0,0), 1 (Blue) for (1,0), 2 (Red) for (0,1) and 3 (Green1) for (1,1). -/
theorem channel_index_0123 :
    (bayer_channel 0 0 = 0 ∧ filters_table (bayer_channel 0 0) = filters_Green2) ∧
    (bayer_channel 1 0 = 1 ∧ filters_table (bayer_channel 1 0) = filters_Blue) ∧
    (bayer_channel 0 1 = 2 ∧ filters_table (bayer_channel 0 1) = filters_Red) ∧
    (bayer_channel 1 1 = 3 ∧ filters_table (bayer_channel 1 1) = filters_Green1) := by
  refine ⟨⟨by decide, rfl⟩, ⟨by decide, rfl⟩, ⟨by decide, rfl⟩, ⟨by decide, rfl⟩⟩

set_option maxRecDepth 100000 in
/-- C4, at the 3x3 frame pair `ovfState` (16-bit samples), pixel (1,1), kernel
set 0, column parity 0: the sum of the 54 products is 2352772035, above the
largest signed 32-bit value 2147483647; the accumulator holds the wrapped
value -1942195261 and the stored sample is 0 where the exact sum gives 65535. -/
theorem accumulator_overflows :
    2147483647 < exact_sum ovfState 0 0 1 1 ∧
    pixel_sum ovfState 0 0 1 1 = -1942195261 ∧
    conv_value ovfState 1 1 0 0 = 0 ∧
    COERCE (exact_sum ovfState 0 0 1 1 / 8192) 0 65535 = 65535 := by
  decide


theorem mem_interior_pixels (s : State) (x y : Int) :
    (x, y) ∈ interior_pixels s ↔ (1 ≤ x ∧ x < s.width - 1) ∧ (1 ≤ y ∧ y < s.height - 1) := by
  unfold interior_pixels
  simp only [List.mem_flatMap, List.mem_map, mem_forRange, Prod.mk.injEq]
  constructor
  · rintro ⟨y', hy', x', hx', rfl, rfl⟩; exact ⟨hx', hy'⟩
  · rintro ⟨hx', hy'⟩; exact ⟨y, hy', x, hx', rfl, rfl⟩

theorem recover_bayer_channel_writes_eq_map (s : State) (dx dy : Int) :
    recover_bayer_channel_writes s dx dy =
      (interior_pixels s).map
        (fun p => (raw_cell s p.1 p.2 dx dy, conv_value s p.1 p.2 dx dy)) := by
  unfold recover_bayer_channel_writes interior_pixels raw_cell conv_value
  simp only [List.map_flatMap, List.map_map]
  rfl

theorem conv_write_range (s : State) (x y dx dy : Int) :
    0 ≤ (raw_cell s x y dx dy, conv_value s x y dx dy).2 ∧
      (raw_cell s x y dx dy, conv_value s x y dx dy).2 ≤ 65535 :=
  COERCE_range _

theorem border_value_range (s : State) (h16 : sixteen_bit s) (x y dx dy : Int) :
    0 ≤ border_value s x y dx dy ∧ border_value s x y dx dy ≤ 65535 := by
  unfold border_value
  split_ifs
  · exact (h16 _).2
  · exact (h16 _).1
  · exact (h16 _).2
  · exact (h16 _).2

/-- C9: with 16-bit frames, every value `recover_raw_data` assigns to a cell
of `raw` (a clamped filter result or a copied sample) lies in `[0, 65535]`
before the store, so the store into the 16-bit buffer changes nothing, and
every raw position `(X, Y)` of the `2w x 2h` image ends up in `[0, 65535]`. -/
theorem stored_values_in_range (s : State) (h16 : sixteen_bit s) :
    (recover_raw_data s).raw = do_writes s.raw (recover_raw_data_writes s) ∧
    (∀ w ∈ recover_raw_data_writes s, (0 ≤ w.2 ∧ w.2 ≤ 65535) ∧ store16 w.2 = w.2) ∧
    (∀ X Y : Int, 0 ≤ X ∧ X < 2 * s.width → 0 ≤ Y ∧ Y < 2 * s.height →
      0 ≤ (recover_raw_data s).raw (X + Y * (2 * s.width)) ∧
      (recover_raw_data s).raw (X + Y * (2 * s.width)) ≤ 65535) := by
  refine ⟨recover_raw_data_eq_do_writes s, ?_, ?_⟩
  · intro w hw
    have hr : 0 ≤ w.2 ∧ w.2 ≤ 65535 := by
      unfold recover_raw_data_writes at hw
      simp only [List.mem_append] at hw
      rcases hw with (((hw | hw) | hw) | hw) | hw
      · obtain ⟨y, -, x, -, rfl⟩ := (mem_recover_bayer_channel_writes s 0 0 w).mp hw
        exact conv_write_range s x y 0 0
      · obtain ⟨y, -, x, -, rfl⟩ := (mem_recover_bayer_channel_writes s 0 1 w).mp hw
        exact conv_write_range s x y 0 1
      · obtain ⟨y, -, x, -, rfl⟩ := (mem_recover_bayer_channel_writes s 1 0 w).mp hw
        exact conv_write_range s x y 1 0
      · obtain ⟨y, -, x, -, rfl⟩ := (mem_recover_bayer_channel_writes s 1 1 w).mp hw
        exact conv_write_range s x y 1 1
      · obtain ⟨y, -, x, -, -, hw'⟩ := (mem_fill_border_writes s w).mp hw
        rcases hw' with rfl | rfl | rfl | rfl
        · exact border_value_range s h16 x y 0 0
        · exact border_value_range s h16 x y 1 1
        · exact border_value_range s h16 x y 0 1
        · exact border_value_range s h16 x y 1 0
    exact ⟨hr, store16_of_range _ hr⟩
  · intro X Y hX hY
    have h := recover_raw_data_raw s (X / 2) (Y / 2) (X % 2) (Y % 2) (by omega) (by omega)
      (by omega) (by omega)
    have e : raw_cell s (X / 2) (Y / 2) (X % 2) (Y % 2) = X + Y * (2 * s.width) := by
      unfold raw_cell
      have h1 : 2 * (X / 2) + X % 2 = X := by omega
      have h2 : 2 * (Y / 2) + Y % 2 = Y := by omega
      rw [h1, h2]
    rw [e] at h
    rw [h]
    split_ifs
    · exact store16_range _
    · exact conv_value_range s _ _ _ _

/-- C9 at the 3x3 frame pair `ovfState`. -/
theorem stored_values_in_range_witness :
    (recover_raw_data ovfState).raw = do_writes ovfState.raw (recover_raw_data_writes ovfState) ∧
    (∀ w ∈ recover_raw_data_writes ovfState, (0 ≤ w.2 ∧ w.2 ≤ 65535) ∧ store16 w.2 = w.2) ∧
    (∀ X Y : Int, 0 ≤ X ∧ X < 2 * ovfState.width → 0 ≤ Y ∧ Y < 2 * ovfState.height →
      0 ≤ (recover_raw_data ovfState).raw (X + Y * (2 * ovfState.width)) ∧
      (recover_raw_data ovfState).raw (X + Y * (2 * ovfState.width)) ≤ 65535) :=
  stored_values_in_range ovfState ovfState_sixteen_bit

/-- C10, counterexample: in a 4x4 frame pair the convolution loop visits the
pixels (1,1) and (2,2) (and two more); no single pixel is the only interior one. -/
theorem four_by_four_not_one_interior :
    ¬ (∃ p, ∀ q, q ∈ interior_pixels fourByFourState ↔ q = p) := by
  rintro ⟨p, hp⟩
  have h1 := (hp (1, 1)).mp (by decide)
  have h2 := (hp (2, 2)).mp (by decide)
  rw [← h1] at h2
  exact absurd h2 (by decide)

/-- C10, amended: a 4x4 frame pair has four interior pixels, (1,1), (2,1),
(1,2) and (2,2); the convolution passes assign exactly the cells of their
tiles, these sixteen cells end up with the clamped filter results and every
other cell of the 8x8 raw image with the border copy.  Frames with an
interior pixel are at least 3x3, and a 3x3 frame pair has the single interior
pixel (1,1). -/
theorem four_by_four_tiles (s : State) (hw : s.width = 4) (hh : s.height = 4) :
    interior_pixels s = [(1, 1), (2, 1), (1, 2), (2, 2)] ∧
    (∀ dx dy, recover_bayer_channel_writes s dx dy =
      (interior_pixels s).map
        (fun p => (raw_cell s p.1 p.2 dx dy, conv_value s p.1 p.2 dx dy))) ∧
    (∀ x y dx dy : Int, 0 ≤ x ∧ x < 4 → 0 ≤ y ∧ y < 4 → dx = 0 ∨ dx = 1 → dy = 0 ∨ dy = 1 →
      (recover_raw_data s).raw (2*x+dx + (2*y+dy) * (2*s.width)) =
        if (x, y) ∈ interior_pixels s then conv_value s x y dx dy
        else store16 (border_value s x y dx dy)) ∧
    (∀ t : State, interior_pixels t ≠ [] → 3 ≤ t.width ∧ 3 ≤ t.height) ∧
    (∀ t : State, t.width = 3 → t.height = 3 → interior_pixels t = [(1, 1)]) := by
  refine ⟨?_, recover_bayer_channel_writes_eq_map s, ?_, ?_, ?_⟩
  · unfold interior_pixels
    rw [hw, hh]
    decide
  · intro x y dx dy hx hy hdx hdy
    have h := recover_raw_data_raw s x y dx dy (by omega) (by omega) hdx hdy
    unfold raw_cell at h
    rw [h]
    by_cases hb : on_border s x y
    · have hn : ¬ (x, y) ∈ interior_pixels s := by
        rw [mem_interior_pixels]; unfold on_border at hb; omega
      rw [if_pos hb, if_neg hn]
    · have hi : (x, y) ∈ interior_pixels s := by
        rw [mem_interior_pixels]; unfold on_border at hb; omega
      rw [if_neg hb, if_pos hi]
  · intro t ht
    obtain ⟨⟨x, y⟩, hp⟩ := List.exists_mem_of_ne_nil _ ht
    rw [mem_interior_pixels] at hp
    omega
  · intro t h3 h3'
    unfold interior_pixels
    rw [h3, h3']
    decide

/-- C10, amended claim at the 4x4 frame pair of zero samples. -/
theorem four_by_four_tiles_witness :
    interior_pixels fourByFourState = [(1, 1), (2, 1), (1, 2), (2, 2)] ∧
    (∀ dx dy, recover_bayer_channel_writes fourByFourState dx dy =
      (interior_pixels fourByFourState).map
        (fun p => (raw_cell fourByFourState p.1 p.2 dx dy,
          conv_value fourByFourState p.1 p.2 dx dy))) ∧
    (∀ x y dx dy : Int, 0 ≤ x ∧ x < 4 → 0 ≤ y ∧ y < 4 → dx = 0 ∨ dx = 1 → dy = 0 ∨ dy = 1 →
      (recover_raw_data fourByFourState).raw (2*x+dx + (2*y+dy) * (2*fourByFourState.width)) =
        if (x, y) ∈ interior_pixels fourByFourState then conv_value fourByFourState x y dx dy
        else store16 (border_value fourByFourState x y dx dy)) ∧
    (∀ t : State, interior_pixels t ≠ [] → 3 ≤ t.width ∧ 3 ≤ t.height) ∧
    (∀ t : State, t.width = 3 → t.height = 3 → interior_pixels t = [(1, 1)]) :=
  four_by_four_tiles fourByFourState rfl rfl


/-! ## Claims on the linearisation -/

theorem forRange_nodup (lo hi : Int) : (forRange lo hi).Nodup := by
  unfold forRange
  refine List.Nodup.map ?_ (List.nodup_range _)
  intro a b h
  simp only at h
  omega

theorem foldl_pointwise (g : Int → Int) (l : List Int) (hnd : l.Nodup) (raw : Int → Int)
    (q : Int) :
    (l.foldl (fun raw i => fun j => if j = i then g (raw i) else raw j) raw) q =
      if q ∈ l then g (raw q) else raw q := by
  induction l generalizing raw with
  | nil => simp
  | cons a l ih =>
    rw [List.foldl_cons, ih (List.nodup_cons.mp hnd).2]
    have hal : a ∉ l := (List.nodup_cons.mp hnd).1
    by_cases hq : q ∈ l
    · have hqa : q ≠ a := fun h => hal (h ▸ hq)
      simp [hq, hqa]
    · by_cases hqa : q = a
      · subst hqa; simp [hq]
      · simp [hq, hqa]

/-- The table entry as a function of the double value before the clamp. -/
theorem lut_eq (pre : Int → Dbl) (i : Int) :
    lut pre i =
      match pre i with
      | Dbl.fin q => if q < 0 then 0 else if 4095 < q then 4095 else ⌊q⌋
      | Dbl.pinf => 4095
      | Dbl.ninf => 0
      | Dbl.nan => 4095 := by
  unfold lut
  cases h : pre i with
  | fin q =>
    simp only [COERCEd, MINd, MAXd, Dbl.lt, decide_eq_true_eq]
    by_cases h1 : q < 0
    · have h2 : q < 4095 := by linarith
      have h3 : ¬ (0 : ℚ) < q := by linarith
      simp [h1, h2, h3, double_to_int]
    · by_cases h2 : 4095 < q
      · have h3 : ¬ q < 4095 := by linarith
        simp [h1, h2, h3, double_to_int]
      · rcases lt_or_eq_of_le (not_lt.mp h2) with h3 | h3
        · rcases lt_or_eq_of_le (not_lt.mp h1) with h4 | h4
          · simp [h1, h2, h3, h4, double_to_int, le_of_lt h4]
          · subst h4; simp [double_to_int]; norm_num
        · subst h3; simp [double_to_int]; norm_num
  | pinf => simp [COERCEd, MINd, MAXd, Dbl.lt, double_to_int]
  | ninf => simp [COERCEd, MINd, MAXd, Dbl.lt, double_to_int]
  | nan => simp [COERCEd, MINd, MAXd, Dbl.lt, double_to_int]

theorem lut_range (pre : Int → Dbl) (i : Int) : 0 ≤ lut pre i ∧ lut pre i ≤ 4095 := by
  rw [lut_eq]
  cases pre i with
  | fin q =>
    simp only
    split_ifs with h1 h2
    · omega
    · omega
    · constructor
      · exact Int.floor_nonneg.mpr (not_lt.mp h1)
      · have : (⌊q⌋ : ℚ) ≤ 4095 := le_trans (Int.floor_le q) (not_lt.mp h2)
        exact_mod_cast this
  | pinf => simp
  | ninf => simp
  | nan => simp

/-- C6: `convert_to_linear` replaces each of the first `w*h` samples by the
table entry indexed by the sample's previous value, whatever the other
samples are; every table entry lies in `[0, 4095]`, and so does every sample
of the result. -/
theorem convert_to_linear_lookup (pre : Int → Dbl) (raw : Int → Int) (w h : Int) :
    (∀ i, 0 ≤ i ∧ i < w * h → convert_to_linear pre raw w h i = lut pre (raw i)) ∧
    (∀ j, 0 ≤ lut pre j ∧ lut pre j ≤ 4095) ∧
    (∀ i, 0 ≤ i ∧ i < w * h →
      0 ≤ convert_to_linear pre raw w h i ∧ convert_to_linear pre raw w h i ≤ 4095) := by
  have key : ∀ i, 0 ≤ i ∧ i < w * h → convert_to_linear pre raw w h i = lut pre (raw i) := by
    intro i hi
    unfold convert_to_linear
    rw [foldl_pointwise (fun v => store16 (lut pre v)) _ (forRange_nodup _ _),
      if_pos ((mem_forRange _ _ _).mpr hi)]
    have := lut_range pre (raw i)
    exact store16_of_range _ (by omega)
  refine ⟨key, lut_range pre, ?_⟩
  intro i hi
  rw [key i hi]
  exact lut_range pre (raw i)


theorem lut_entry_floor_clamp (pre : Int → Dbl) (i : Int) (q : ℚ) (hp : pre i = Dbl.fin q) :
    lut pre i = ⌊max 0 (min q 4095)⌋ := by
  have h := lut_eq pre i
  rw [hp] at h
  simp only at h
  rw [h]
  split_ifs with h1 h2
  · rw [max_eq_left (le_trans (min_le_left _ _) (le_of_lt h1))]; simp
  · rw [min_eq_right (le_of_lt h2), max_eq_right (by norm_num)]
    exact (Int.floor_intCast (4095 : Int)).symm
  · rw [min_eq_left (not_lt.mp h2), max_eq_right (not_lt.mp h1)]

/-- The clamp and the conversion keep the order of finite double values. -/
theorem lut_le_of_le (pre : Int → Dbl) (i j : Int) (a b : ℚ)
    (hi : pre i = Dbl.fin a) (hj : pre j = Dbl.fin b) (hab : a ≤ b) :
    lut pre i ≤ lut pre j := by
  have e1 := lut_entry_floor_clamp pre i a hi
  have e2 := lut_entry_floor_clamp pre j b hj
  rw [e1, e2]
  exact Int.floor_le_floor (max_le_max (le_refl _) (min_le_min hab (le_refl _)))


/-! ## Claims on the kernel table -/

/-- C13, counterexample: the coefficient `filters[3][1][0][1][1][1]` (Green1,
second column parity, frame A, green plane, kernel centre) is 20874. -/
theorem coefficient_above_20000 :
    filters 3 1 0 1 1 1 = 20874 ∧ ¬ (|filters 3 1 0 1 1 1| ≤ 20000) := by
  decide

set_option maxRecDepth 100000 in
theorem filters_abs_le_in_range :
    ∀ ch ∈ forRange 0 4, ∀ c ∈ forRange 0 2, ∀ k ∈ forRange 0 2, ∀ p ∈ forRange 0 3,
      ∀ i ∈ forRange 0 3, ∀ j ∈ forRange 0 3, |filters ch c k p i j| ≤ 20874 := by
  decide

/-- C13, amended: every coefficient of the kernel table has absolute value
at most 20874, and this value is attained. -/
theorem coefficient_bound :
    (∀ ch c k p i j : Int, 0 ≤ ch ∧ ch < 4 → 0 ≤ c ∧ c < 2 → 0 ≤ k ∧ k < 2 → 0 ≤ p ∧ p < 3 →
      0 ≤ i ∧ i < 3 → 0 ≤ j ∧ j < 3 → |filters ch c k p i j| ≤ 20874) ∧
    |filters 3 1 0 1 1 1| = 20874 := by
  refine ⟨?_, by decide⟩
  intro ch c k p i j hch hc hk hp hi hj
  exact filters_abs_le_in_range ch ((mem_forRange _ _ _).mpr hch) c ((mem_forRange _ _ _).mpr hc)
    k ((mem_forRange _ _ _).mpr hk) p ((mem_forRange _ _ _).mpr hp)
    i ((mem_forRange _ _ _).mpr hi) j ((mem_forRange _ _ _).mpr hj)

/-- C14, counterexample: for the even column 2 the code selects sub-table 1
(labelled 'odd columns') and for the odd column 1 it selects sub-table 0
(labelled 'even columns'). -/
theorem even_column_selects_subtable_1 :
    column_parity 2 = 1 ∧ column_parity 1 = 0 ∧
    ¬ (column_parity 2 = 0 ∧ column_parity 1 = 1) := by
  decide

/-- C14, amended: the column-parity index is the negated parity
`c = !(x % 2)`: an even `x` selects sub-table 1 (labelled 'odd columns'), an
odd `x` selects sub-table 0 (labelled 'even columns'), and the sample stored
for an interior pixel of column `x` is computed with the kernels of that
sub-table.  This is the reverse of the index `(x/2) % 2` of the raw column
that the comment on the table documents. -/
theorem column_parity_negated (x : Int) :
    (x % 2 = 0 → column_parity x = 1) ∧ (x % 2 = 1 → column_parity x = 0) ∧
    (∀ (s : State) (y dx dy : Int), conv_value s x y dx dy =
      COERCE (Int.tdiv
        (pixel_sum s (bayer_channel dx dy) (if x % 2 = 0 then 1 else 0) x y) 8192) 0 65535) ∧
    (0 ≤ x → ∀ dx : Int, dx = 0 ∨ dx = 1 →
      documented_column_parity (2*x+dx) = x % 2 ∧
      documented_column_parity (2*x+dx) = 1 - column_parity x) := by
  have hc := column_parity_eq x
  refine ⟨?_, ?_, ?_, ?_⟩
  · intro h
    rw [hc, if_pos h]
  · intro h
    rw [hc, if_neg (by omega)]
  · intro s y dx dy
    unfold conv_value
    rw [hc]
  · intro hx dx hdx
    have h1 : Int.tdiv (2*x+dx) 2 = x := by
      rw [Int.tdiv_eq_ediv (by omega) (by norm_num)]; omega
    have h2 : Int.tmod x 2 = x % 2 := Int.tmod_eq_emod hx (by norm_num)
    have h3 : documented_column_parity (2*x+dx) = x % 2 := by
      unfold documented_column_parity; rw [h1, h2]
    refine ⟨h3, ?_⟩
    rw [h3, hc]
    split_ifs <;> omega

set_option maxRecDepth 100000 in
theorem kernel_set_sum_values :
    kernel_set_sum 0 0 = 8209 ∧ kernel_set_sum 0 1 = 8213 ∧ kernel_set_sum 1 0 = 8208 ∧
    kernel_set_sum 1 1 = 8206 ∧ kernel_set_sum 2 0 = 8205 ∧ kernel_set_sum 2 1 = 8208 ∧
    kernel_set_sum 3 0 = 8203 ∧ kernel_set_sum 3 1 = 8204 := by
  decide

/-- C15: for each of the 8 kernel sets the sum of the 54 coefficients lies
between 8111 and 8273, that is within 1% of the scale 8192. -/
theorem kernel_set_sum_near_scale (ch c : Int) (hch : 0 ≤ ch ∧ ch < 4) (hc : 0 ≤ c ∧ c < 2) :
    8111 ≤ kernel_set_sum ch c ∧ kernel_set_sum ch c ≤ 8273 := by
  obtain ⟨h00, h01, h10, h11, h20, h21, h30, h31⟩ := kernel_set_sum_values
  have hch' : ch = 0 ∨ ch = 1 ∨ ch = 2 ∨ ch = 3 := by omega
  have hc' : c = 0 ∨ c = 1 := by omega
  rcases hch' with rfl | rfl | rfl | rfl <;> rcases hc' with rfl | rfl <;> omega

/-- C15 at the kernel set of channel 2 (Red), column parity 1. -/
theorem kernel_set_sum_near_scale_witness :
    8111 ≤ kernel_set_sum 2 1 ∧ kernel_set_sum 2 1 ≤ 8273 :=
  kernel_set_sum_near_scale 2 1 (by decide) (by decide)

/-! ## Claims on the division and the clamp -/

/-- C18: for a sum `S` in the signed 32-bit range, the clamp of C's
truncating quotient `S / 8192` equals the clamp of the floor quotient; a
negative `S` gives 0 and an `S` of at least `65535 * 8192` gives 65535. -/
theorem clamp_of_quotient (S : Int) (hS : -2147483648 ≤ S ∧ S ≤ 2147483647) :
    COERCE (Int.tdiv S 8192) 0 65535 = COERCE (S / 8192) 0 65535 ∧
    (S < 0 → COERCE (Int.tdiv S 8192) 0 65535 = 0) ∧
    (65535 * 8192 ≤ S → COERCE (Int.tdiv S 8192) 0 65535 = 65535) := by
  have h := COERCE_tdiv_8192 S
  refine ⟨h, ?_, ?_⟩
  · intro hneg
    rw [h]
    have : S / 8192 < 0 := Int.ediv_neg' hneg (by norm_num)
    unfold COERCE MAX MIN
    split_ifs <;> omega
  · intro hbig
    rw [h]
    have : 65535 ≤ S / 8192 := by omega
    unfold COERCE MAX MIN
    split_ifs <;> omega

/-- C18 at the sum -1942195261. -/
theorem clamp_of_quotient_witness :
    COERCE (Int.tdiv (-1942195261) 8192) 0 65535 = COERCE (-1942195261 / 8192) 0 65535 ∧
    ((-1942195261 : Int) < 0 → COERCE (Int.tdiv (-1942195261) 8192) 0 65535 = 0) ∧
    (65535 * 8192 ≤ (-1942195261 : Int) →
      COERCE (Int.tdiv (-1942195261) 8192) 0 65535 = 65535) :=
  clamp_of_quotient (-1942195261) (by decide)


/-! ## Claims on the border tiles and on the order of the passes -/

theorem recover_bayer_channel_writes_nil (s : State) (dx dy : Int)
    (hs : s.width ≤ 2 ∨ s.height ≤ 2) : recover_bayer_channel_writes s dx dy = [] := by
  apply List.eq_nil_iff_forall_not_mem.mpr
  intro w hw
  obtain ⟨y, hy, x, hx, -⟩ := (mem_recover_bayer_channel_writes s dx dy w).mp hw
  omega

theorem recover_bayer_channel_small (s : State) (dx dy : Int)
    (hs : s.width ≤ 2 ∨ s.height ≤ 2) : recover_bayer_channel dx dy s = s := by
  unfold recover_bayer_channel
  rw [recover_bayer_channel_writes_nil s dx dy hs]
  rfl

/-- C16: after `recover_raw_data` the tile of a border pixel `(x, y)` holds
direct copies: raw(2x, 2y) is frame B's green, raw(2x+1, 2y+1) frame A's
green, raw(2x, 2y+1) frame B's red and raw(2x+1, 2y) frame B's blue sample
of the pixel.  When `w <= 2` or `h <= 2` every pixel is a border pixel, the
convolution passes assign nothing and `recover_raw_data` is the border loop
alone. -/
theorem border_tiles_direct_copy (s : State) (x y : Int) (h16 : sixteen_bit s)
    (hx : 0 ≤ x ∧ x < s.width) (hy : 0 ≤ y ∧ y < s.height)
    (hb : x = 0 ∨ y = 0 ∨ x = s.width - 1 ∨ y = s.height - 1) :
    (recover_raw_data s).raw (2*x + (2*y) * (2*s.width)) = s.rgbB (3*x+1 + y*s.width*3) ∧
    (recover_raw_data s).raw (2*x+1 + (2*y+1) * (2*s.width)) = s.rgbA (3*x+1 + y*s.width*3) ∧
    (recover_raw_data s).raw (2*x + (2*y+1) * (2*s.width)) = s.rgbB (3*x + y*s.width*3) ∧
    (recover_raw_data s).raw (2*x+1 + (2*y) * (2*s.width)) = s.rgbB (3*x+2 + y*s.width*3) ∧
    (s.width ≤ 2 ∨ s.height ≤ 2 →
      (∀ x' y' : Int, 0 ≤ x' ∧ x' < s.width → 0 ≤ y' ∧ y' < s.height →
        x' = 0 ∨ y' = 0 ∨ x' = s.width - 1 ∨ y' = s.height - 1) ∧
      (∀ dx dy, recover_bayer_channel_writes s dx dy = []) ∧
      recover_raw_data s = fill_border s) := by
  have hA := fun i => store16_of_range _ (h16 i).1
  have hB := fun i => store16_of_range _ (h16 i).2
  have h00 := recover_raw_data_raw s x y 0 0 hx hy (Or.inl rfl) (Or.inl rfl)
  have h11 := recover_raw_data_raw s x y 1 1 hx hy (Or.inr rfl) (Or.inr rfl)
  have h01 := recover_raw_data_raw s x y 0 1 hx hy (Or.inl rfl) (Or.inr rfl)
  have h10 := recover_raw_data_raw s x y 1 0 hx hy (Or.inr rfl) (Or.inl rfl)
  unfold raw_cell at h00 h11 h01 h10
  rw [if_pos hb] at h00 h11 h01 h10
  refine ⟨?_, ?_, ?_, ?_, ?_⟩
  · simpa [border_value, hA, hB] using h00
  · simpa [border_value, hA, hB] using h11
  · simpa [border_value, hA, hB] using h01
  · simpa [border_value, hA, hB] using h10
  · intro hs
    refine ⟨?_, fun dx dy => recover_bayer_channel_writes_nil s dx dy hs, ?_⟩
    · intro x' y' hx' hy'; omega
    · unfold recover_raw_data
      simp only [recover_bayer_channel_small s _ _ hs]

/-- C16 at the 1x1 frame pair `onePixelState`. -/
theorem border_tiles_direct_copy_witness :
    (recover_raw_data onePixelState).raw (2*0 + (2*0) * (2*onePixelState.width)) =
      onePixelState.rgbB (3*0+1 + 0*onePixelState.width*3) ∧
    (recover_raw_data onePixelState).raw (2*0+1 + (2*0+1) * (2*onePixelState.width)) =
      onePixelState.rgbA (3*0+1 + 0*onePixelState.width*3) ∧
    (recover_raw_data onePixelState).raw (2*0 + (2*0+1) * (2*onePixelState.width)) =
      onePixelState.rgbB (3*0 + 0*onePixelState.width*3) ∧
    (recover_raw_data onePixelState).raw (2*0+1 + (2*0) * (2*onePixelState.width)) =
      onePixelState.rgbB (3*0+2 + 0*onePixelState.width*3) ∧
    (onePixelState.width ≤ 2 ∨ onePixelState.height ≤ 2 →
      (∀ x' y' : Int, 0 ≤ x' ∧ x' < onePixelState.width → 0 ≤ y' ∧ y' < onePixelState.height →
        x' = 0 ∨ y' = 0 ∨ x' = onePixelState.width - 1 ∨ y' = onePixelState.height - 1) ∧
      (∀ dx dy, recover_bayer_channel_writes onePixelState dx dy = []) ∧
      recover_raw_data onePixelState = fill_border onePixelState) :=
  border_tiles_direct_copy onePixelState 0 0 onePixelState_sixteen_bit (by decide) (by decide)
    (by decide)


theorem do_writes_congr (ws : List (Int × Int)) (raw raw' : Int → Int) (q : Int)
    (h : raw q = raw' q) : do_writes raw ws q = do_writes raw' ws q := by
  induction ws generalizing raw raw' with
  | nil => exact h
  | cons a ws ih =>
    unfold do_writes
    apply ih
    simp only [h]

/-- Two lists of assignments that name no common index can be performed in
either order. -/
theorem do_writes_comm (A B : List (Int × Int)) (raw : Int → Int)
    (hd : ∀ a ∈ A, ∀ b ∈ B, a.1 ≠ b.1) :
    do_writes (do_writes raw A) B = do_writes (do_writes raw B) A := by
  funext q
  by_cases hq : ∃ a ∈ A, a.1 = q
  · obtain ⟨a, ha, rfl⟩ := hq
    have hB : ∀ b ∈ B, b.1 ≠ a.1 := fun b hb h => hd a ha b hb h.symm
    rw [do_writes_untouched B _ _ hB]
    exact do_writes_congr A _ _ _ (do_writes_untouched B raw _ hB).symm
  · have hA : ∀ a ∈ A, a.1 ≠ q := fun a ha h => hq ⟨a, ha, h⟩
    rw [do_writes_untouched A _ _ hA]
    exact do_writes_congr B _ _ _ (do_writes_untouched A raw _ hA)

theorem recover_bayer_channel_writes_disjoint (s : State) (dx dy dx' dy' : Int)
    (hdx : dx = 0 ∨ dx = 1) (hdy : dy = 0 ∨ dy = 1)
    (hdx' : dx' = 0 ∨ dx' = 1) (hdy' : dy' = 0 ∨ dy' = 1)
    (hne : (dx, dy) ≠ (dx', dy')) :
    ∀ a ∈ recover_bayer_channel_writes s dx dy, ∀ b ∈ recover_bayer_channel_writes s dx' dy',
      a.1 ≠ b.1 := by
  intro a ha b hb hab
  obtain ⟨y, hy, x, hx, rfl⟩ := (mem_recover_bayer_channel_writes s dx dy a).mp ha
  obtain ⟨y', hy', x', hx', rfl⟩ := (mem_recover_bayer_channel_writes s dx' dy' b).mp hb
  have := raw_cell_inj s x y dx dy x' y' dx' dy' (by omega) (by omega) hdx hdy hdx' hdy' hab
  obtain ⟨-, -, rfl, rfl⟩ := this
  exact hne rfl

theorem recover_bayer_channel_comm (s : State) (dx dy dx' dy' : Int)
    (hdx : dx = 0 ∨ dx = 1) (hdy : dy = 0 ∨ dy = 1)
    (hdx' : dx' = 0 ∨ dx' = 1) (hdy' : dy' = 0 ∨ dy' = 1) :
    recover_bayer_channel dx' dy' (recover_bayer_channel dx dy s) =
      recover_bayer_channel dx dy (recover_bayer_channel dx' dy' s) := by
  by_cases hne : (dx, dy) = (dx', dy')
  · obtain ⟨rfl, rfl⟩ := Prod.mk.inj hne
    rfl
  · have hc := do_writes_comm (recover_bayer_channel_writes s dx dy)
      (recover_bayer_channel_writes s dx' dy') s.raw
      (recover_bayer_channel_writes_disjoint s dx dy dx' dy' hdx hdy hdx' hdy' hne)
    have e1 : recover_bayer_channel dx' dy' (recover_bayer_channel dx dy s) =
        ⟨s.rgbA, s.rgbB,
          do_writes (do_writes s.raw (recover_bayer_channel_writes s dx dy))
            (recover_bayer_channel_writes s dx' dy'),
          s.width, s.height⟩ := rfl
    have e2 : recover_bayer_channel dx dy (recover_bayer_channel dx' dy' s) =
        ⟨s.rgbA, s.rgbB,
          do_writes (do_writes s.raw (recover_bayer_channel_writes s dx' dy'))
            (recover_bayer_channel_writes s dx dy),
          s.width, s.height⟩ := rfl
    rw [e1, e2, hc]

/-- C12: for distinct tile offsets in {0,1} x {0,1} the passes
`recover_bayer_channel(dx, dy)` and `recover_bayer_channel(dx', dy')` assign
disjoint sets of raw indices, and the four passes of `recover_raw_data`, run
in any order from the same state, leave the same state (frames and raw
buffer). -/
theorem passes_commute (s : State) :
    (∀ dx dy dx' dy' : Int, dx = 0 ∨ dx = 1 → dy = 0 ∨ dy = 1 → dx' = 0 ∨ dx' = 1 →
      dy' = 0 ∨ dy' = 1 → (dx, dy) ≠ (dx', dy') →
      ∀ a ∈ recover_bayer_channel_writes s dx dy,
        ∀ b ∈ recover_bayer_channel_writes s dx' dy', a.1 ≠ b.1) ∧
    (∀ l : List (Int × Int), l.Perm [(0, 0), (0, 1), (1, 0), (1, 1)] →
      run_passes l s = run_passes [(0, 0), (0, 1), (1, 0), (1, 1)] s) ∧
    recover_raw_data s = fill_border (run_passes [(0, 0), (0, 1), (1, 0), (1, 1)] s) := by
  refine ⟨fun dx dy dx' dy' h1 h2 h3 h4 hne =>
    recover_bayer_channel_writes_disjoint s dx dy dx' dy' h1 h2 h3 h4 hne, ?_, rfl⟩
  intro l hl
  unfold run_passes
  apply List.Perm.foldl_eq' hl
  intro a ha b hb z
  have ha' := hl.mem_iff.mp ha
  have hb' := hl.mem_iff.mp hb
  have hbits : ∀ d : Int × Int, d ∈ [((0 : Int), (0 : Int)), (0, 1), (1, 0), (1, 1)] →
      (d.1 = 0 ∨ d.1 = 1) ∧ (d.2 = 0 ∨ d.2 = 1) := by
    intro d hd
    simp only [List.mem_cons, List.mem_singleton, List.not_mem_nil, or_false] at hd
    rcases hd with rfl | rfl | rfl | rfl <;> simp
  exact recover_bayer_channel_comm z a.1 a.2 b.1 b.2 (hbits a ha').1 (hbits a ha').2
    (hbits b hb').1 (hbits b hb').2


/-! ## Claims on the byte order -/

theorem foldl_swap_pairs (l : List Int) (hnd : l.Nodup) (buf : Int → Int) (j : Int) :
    (l.foldl
      (fun buf i =>
        let x := buf16 buf i
        let buf1 : Int → Int := fun j => if j = 2*i+1 then x % 256 else buf j
        fun j => if j = 2*i then (x / 256) % 256 else buf1 j)
      buf) j =
      if j / 2 ∈ l then
        (if j % 2 = 0 then (buf16 buf (j / 2) / 256) % 256 else buf16 buf (j / 2) % 256)
      else buf j := by
  induction l generalizing buf with
  | nil => simp
  | cons a l ih =>
    rw [List.foldl_cons, ih (List.nodup_cons.mp hnd).2]
    have hal : a ∉ l := (List.nodup_cons.mp hnd).1
    by_cases hq : j / 2 ∈ l
    · have hne : j / 2 ≠ a := fun h => hal (h ▸ hq)
      have h1 : ¬ 2 * (j / 2) = 2 * a := by omega
      have h2 : ¬ 2 * (j / 2) = 2 * a + 1 := by omega
      have h3 : ¬ 2 * (j / 2) + 1 = 2 * a := by omega
      have h4 : ¬ 2 * (j / 2) + 1 = 2 * a + 1 := by omega
      simp only [hq, if_true, List.mem_cons, or_true, buf16, h1, h2, h3, h4, if_false]
    · by_cases hja : j / 2 = a
      · subst hja
        simp only [hq, if_false, List.mem_cons, true_or, if_true]
        by_cases hj : j % 2 = 0
        · have e : j = 2 * (j / 2) := by omega
          rw [if_pos e, if_pos hj]
        · have e : ¬ j = 2 * (j / 2) := by omega
          have e' : j = 2 * (j / 2) + 1 := by omega
          rw [if_neg e, if_pos e', if_neg hj]
      · have e1 : ¬ j = 2 * a := by omega
        have e2 : ¬ j = 2 * a + 1 := by omega
        simp only [hq, if_false, List.mem_cons, hja, or_self, e1, e2]

theorem reverse_bytes_order_apply (buf : Int → Int) (count j : Int)
    (hb : ∀ i, 0 ≤ buf i ∧ buf i ≤ 255) (hc : count % 2 = 0) :
    reverse_bytes_order buf count j =
      if 0 ≤ j ∧ j < count then (if j % 2 = 0 then buf (j + 1) else buf (j - 1)) else buf j := by
  unfold reverse_bytes_order
  rw [foldl_swap_pairs _ (forRange_nodup _ _)]
  simp only [mem_forRange]
  have ht : (0 ≤ j / 2 ∧ j / 2 < Int.tdiv count 2) ↔ (0 ≤ j ∧ j < count) := by
    rcases le_or_lt 0 count with h | h
    · rw [Int.tdiv_eq_ediv h (by norm_num)]; omega
    · have h0 : 0 ≤ Int.tdiv (-count) 2 := Int.tdiv_nonneg (by omega) (by norm_num)
      rw [Int.neg_tdiv] at h0
      omega
  simp only [ht]
  split_ifs with h1 h2
  · have e : 2 * (j / 2) + 1 = j + 1 := by omega
    have e' : 2 * (j / 2) = j := by omega
    have := hb j
    have := hb (j + 1)
    unfold buf16
    rw [e, e']
    omega
  · have e : 2 * (j / 2) + 1 = j := by omega
    have e' : 2 * (j / 2) = j - 1 := by omega
    have := hb j
    have := hb (j - 1)
    unfold buf16
    rw [e, e']
    omega
  · rfl

/-- C20: on a little-endian host, for a buffer of bytes and an even `count`,
`reverse_bytes_order` exchanges the two bytes of every 16-bit word among the
first `count` bytes and leaves every other byte as it is; applied twice it
gives back the original buffer. -/
theorem reverse_bytes_order_involution (buf : Int → Int) (count : Int)
    (hb : ∀ i, 0 ≤ buf i ∧ buf i ≤ 255) (hc : count % 2 = 0) :
    (∀ j, 0 ≤ j ∧ j < count →
      reverse_bytes_order buf count j = if j % 2 = 0 then buf (j + 1) else buf (j - 1)) ∧
    (∀ j, ¬ (0 ≤ j ∧ j < count) → reverse_bytes_order buf count j = buf j) ∧
    reverse_bytes_order (reverse_bytes_order buf count) count = buf := by
  have key := fun j => reverse_bytes_order_apply buf count j hb hc
  have hb' : ∀ i, 0 ≤ reverse_bytes_order buf count i ∧ reverse_bytes_order buf count i ≤ 255 := by
    intro i
    rw [key i]
    split_ifs
    · exact hb _
    · exact hb _
    · exact hb _
  refine ⟨?_, ?_, ?_⟩
  · intro j hj; rw [key j, if_pos hj]
  · intro j hj; rw [key j, if_neg hj]
  · funext j
    rw [reverse_bytes_order_apply _ count j hb' hc]
    by_cases hj : 0 ≤ j ∧ j < count
    · rw [if_pos hj]
      by_cases hp : j % 2 = 0
      · rw [if_pos hp, key (j + 1), if_pos (by omega), if_neg (by omega)]
        congr 1; omega
      · rw [if_neg hp, key (j - 1), if_pos (by omega), if_pos (by omega)]
        congr 1; omega
    · rw [if_neg hj, key j, if_neg hj]

theorem sixBytes_are_bytes : ∀ i, 0 ≤ sixBytes i ∧ sixBytes i ≤ 255 := by
  intro i
  unfold sixBytes bytes_of
  split_ifs with h
  · omega
  · have h6 : i.toNat < 6 ∨ 6 ≤ i.toNat := by omega
    rcases h6 with h6 | h6
    · interval_cases hn : i.toNat <;> simp
    · rw [List.getD_eq_default _ _ (by simpa using h6)]; omega

/-- C20 at the buffer with bytes 1 to 6 and `count = 4`. -/
theorem reverse_bytes_order_involution_witness :
    (∀ j, 0 ≤ j ∧ j < 4 →
      reverse_bytes_order sixBytes 4 j = if j % 2 = 0 then sixBytes (j + 1) else sixBytes (j - 1)) ∧
    (∀ j, ¬ (0 ≤ j ∧ j < 4) → reverse_bytes_order sixBytes 4 j = sixBytes j) ∧
    reverse_bytes_order (reverse_bytes_order sixBytes 4) 4 = sixBytes :=
  reverse_bytes_order_involution sixBytes 4 sixBytes_are_bytes (by decide)


/-! ## Claims on the memory accesses -/

/-- The nine-term expression reads exactly the indices listed by `kernel_reads`. -/
theorem kernel_terms_eq_reads (s : State) (ch c k p x y : Int) :
    kernel_terms s ch c k p x y =
      match (kernel_reads s p x y).map (rgb s k) with
      | [r0, r1, r2, r3, r4, r5, r6, r7, r8] =>
        add32 (add32 (add32 (add32 (add32 (add32 (add32 (add32
          (mul32 (filters ch c k p 0 0) r0) (mul32 (filters ch c k p 0 1) r1))
          (mul32 (filters ch c k p 0 2) r2)) (mul32 (filters ch c k p 1 0) r3))
          (mul32 (filters ch c k p 1 1) r4)) (mul32 (filters ch c k p 1 2) r5))
          (mul32 (filters ch c k p 2 0) r6)) (mul32 (filters ch c k p 2 1) r7))
          (mul32 (filters ch c k p 2 2) r8)
      | _ => 0 := rfl

/-- The samples the border loop stores are the frame samples at the indices
listed by `fill_border_reads`, in the same order. -/
theorem fill_border_writes_values (s : State) :
    (fill_border_writes s).map Prod.snd =
      (fill_border_reads s).map (fun r => rgb s r.1 r.2) := by
  unfold fill_border_writes fill_border_reads
  simp only [List.map_flatMap]
  congr 1
  funext y
  congr 1
  funext x
  split_ifs
  · simp [rgb]
  · rfl

theorem rgb_index_bound (w h X Y p : Int) (hX : 0 ≤ X ∧ X < w) (hY : 0 ≤ Y ∧ Y < h)
    (hp : 0 ≤ p ∧ p < 3) :
    0 ≤ X*3+p + Y*w*3 ∧ X*3+p + Y*w*3 < 3*w*h := by
  have h1 : 0 ≤ Y * w := mul_nonneg hY.1 (by omega)
  have h2 : Y * w ≤ (h - 1) * w := mul_le_mul_of_nonneg_right (by omega) (by omega)
  constructor
  · nlinarith
  · nlinarith

theorem raw_index_bound (w h X Y : Int) (hX : 0 ≤ X ∧ X < 2*w) (hY : 0 ≤ Y ∧ Y < 2*h) :
    0 ≤ X + Y * (2*w) ∧ X + Y * (2*w) < 4*w*h := by
  have h1 : 0 ≤ Y * w := mul_nonneg hY.1 (by omega)
  have h2 : Y * w ≤ (2*h - 1) * w := mul_le_mul_of_nonneg_right (by omega) (by omega)
  constructor
  · nlinarith
  · nlinarith

theorem mem_recover_bayer_channel_reads (s : State) (r : Int × Int) :
    r ∈ recover_bayer_channel_reads s ↔
      ∃ y, (1 ≤ y ∧ y < s.height - 1) ∧ ∃ x, (1 ≤ x ∧ x < s.width - 1) ∧
        ∃ k, (0 ≤ k ∧ k < 2) ∧ ∃ p, (0 ≤ p ∧ p < 3) ∧
          ∃ i ∈ kernel_reads s p x y, (k, i) = r := by
  unfold recover_bayer_channel_reads
  simp only [List.mem_flatMap, List.mem_map, mem_forRange]

theorem recover_bayer_channel_reads_bound (s : State) (r : Int × Int)
    (hr : r ∈ recover_bayer_channel_reads s) :
    (r.1 = 0 ∨ r.1 = 1) ∧ 0 ≤ r.2 ∧ r.2 < 3 * s.width * s.height := by
  obtain ⟨y, hy, x, hx, k, hk, p, hp, i, hi, rfl⟩ := (mem_recover_bayer_channel_reads s r).mp hr
  refine ⟨by simp only; omega, ?_⟩
  simp only [kernel_reads, List.mem_cons, List.mem_singleton, List.not_mem_nil, or_false] at hi
  rcases hi with rfl | rfl | rfl | rfl | rfl | rfl | rfl | rfl | rfl
  · exact rgb_index_bound s.width s.height (x-1) (y-1) p (by omega) (by omega) hp
  · exact rgb_index_bound s.width s.height x (y-1) p (by omega) (by omega) hp
  · exact rgb_index_bound s.width s.height (x+1) (y-1) p (by omega) (by omega) hp
  · exact rgb_index_bound s.width s.height (x-1) (y+0) p (by omega) (by omega) hp
  · exact rgb_index_bound s.width s.height x (y+0) p (by omega) (by omega) hp
  · exact rgb_index_bound s.width s.height (x+1) (y+0) p (by omega) (by omega) hp
  · exact rgb_index_bound s.width s.height (x-1) (y+1) p (by omega) (by omega) hp
  · exact rgb_index_bound s.width s.height x (y+1) p (by omega) (by omega) hp
  · exact rgb_index_bound s.width s.height (x+1) (y+1) p (by omega) (by omega) hp

theorem fill_border_reads_bound (s : State) (r : Int × Int) (hr : r ∈ fill_border_reads s) :
    (r.1 = 0 ∨ r.1 = 1) ∧ 0 ≤ r.2 ∧ r.2 < 3 * s.width * s.height := by
  unfold fill_border_reads at hr
  simp only [List.mem_flatMap, mem_forRange] at hr
  obtain ⟨y, hy, x, hx, hr⟩ := hr
  split_ifs at hr with hb
  · simp only [List.mem_cons, List.mem_singleton, List.not_mem_nil, or_false] at hr
    have b0 := rgb_index_bound s.width s.height x y 0 hx hy (by omega)
    have b1 := rgb_index_bound s.width s.height x y 1 hx hy (by omega)
    have b2 := rgb_index_bound s.width s.height x y 2 hx hy (by omega)
    rcases hr with rfl | rfl | rfl | rfl
    · exact ⟨Or.inr rfl, by simp only; constructor <;> linarith⟩
    · exact ⟨Or.inl rfl, by simp only; constructor <;> linarith⟩
    · exact ⟨Or.inr rfl, by simp only; constructor <;> linarith⟩
    · exact ⟨Or.inr rfl, by simp only; constructor <;> linarith⟩
  · cases hr

theorem recover_bayer_channel_writes_bound (s : State) (dx dy : Int)
    (hdx : dx = 0 ∨ dx = 1) (hdy : dy = 0 ∨ dy = 1) (w : Int × Int)
    (hw : w ∈ recover_bayer_channel_writes s dx dy) :
    0 ≤ w.1 ∧ w.1 < 4 * s.width * s.height := by
  obtain ⟨y, hy, x, hx, rfl⟩ := (mem_recover_bayer_channel_writes s dx dy w).mp hw
  exact raw_index_bound s.width s.height (2*x+dx) (2*y+dy) (by omega) (by omega)

theorem fill_border_writes_bound (s : State) (w : Int × Int) (hw : w ∈ fill_border_writes s) :
    0 ≤ w.1 ∧ w.1 < 4 * s.width * s.height := by
  obtain ⟨y, hy, x, hx, -, hw'⟩ := (mem_fill_border_writes s w).mp hw
  rcases hw' with rfl | rfl | rfl | rfl
  · exact raw_index_bound s.width s.height (2*x+0) (2*y+0) (by omega) (by omega)
  · exact raw_index_bound s.width s.height (2*x+1) (2*y+1) (by omega) (by omega)
  · exact raw_index_bound s.width s.height (2*x+0) (2*y+1) (by omega) (by omega)
  · exact raw_index_bound s.width s.height (2*x+1) (2*y+0) (by omega) (by omega)

/-- With exact integers for the index expressions, every index that
`recover_raw_data` (the four passes and the border loop) reads from a frame
is in `0 .. 3wh-1`, and every index it assigns in `raw` is in `0 .. 4wh-1`. -/
theorem exact_indices_in_bounds (s : State) :
    (∀ r ∈ recover_raw_data_reads s,
      (r.1 = 0 ∨ r.1 = 1) ∧ 0 ≤ r.2 ∧ r.2 < 3 * s.width * s.height) ∧
    (∀ w ∈ recover_raw_data_writes s, 0 ≤ w.1 ∧ w.1 < 4 * s.width * s.height) := by
  constructor
  · intro r hr
    unfold recover_raw_data_reads at hr
    simp only [List.mem_append] at hr
    rcases hr with (((hr | hr) | hr) | hr) | hr
    · exact recover_bayer_channel_reads_bound s r hr
    · exact recover_bayer_channel_reads_bound s r hr
    · exact recover_bayer_channel_reads_bound s r hr
    · exact recover_bayer_channel_reads_bound s r hr
    · exact fill_border_reads_bound s r hr
  · intro w hw'
    unfold recover_raw_data_writes at hw'
    simp only [List.mem_append] at hw'
    rcases hw' with (((h | h) | h) | h) | h
    · exact recover_bayer_channel_writes_bound s 0 0 (Or.inl rfl) (Or.inl rfl) w h
    · exact recover_bayer_channel_writes_bound s 0 1 (Or.inl rfl) (Or.inr rfl) w h
    · exact recover_bayer_channel_writes_bound s 1 0 (Or.inr rfl) (Or.inl rfl) w h
    · exact recover_bayer_channel_writes_bound s 1 1 (Or.inr rfl) (Or.inr rfl) w h
    · exact fill_border_writes_bound s w h


/-! ## Claims on the coverage of the raw image -/

theorem nodup_flatMap_of_key {ι β : Type} (l : List ι) (f : ι → List β) (hl : l.Nodup)
    (hf : ∀ i ∈ l, (f i).Nodup)
    (hk : ∀ i ∈ l, ∀ j ∈ l, ∀ b, b ∈ f i → b ∈ f j → i = j) : (l.flatMap f).Nodup := by
  rw [List.nodup_flatMap]
  refine ⟨hf, hl.pairwise_of_forall_ne ?_⟩
  intro i hi j hj hne
  show List.Disjoint (f i) (f j)
  rw [List.disjoint_left]
  intro b hb hb'
  exact hne (hk i hi j hj b hb hb')

/-- Every index below `4wh` is the index of a cell of a tile. -/
theorem cell_of_index (s : State) (hw : 1 ≤ s.width) (q : Int)
    (hq : 0 ≤ q ∧ q < 4 * s.width * s.height) :
    ∃ x y dx dy : Int, (0 ≤ x ∧ x < s.width) ∧ (0 ≤ y ∧ y < s.height) ∧
      (dx = 0 ∨ dx = 1) ∧ (dy = 0 ∨ dy = 1) ∧ raw_cell s x y dx dy = q := by
  have hm : 0 < 2 * s.width := by omega
  have h1 : 0 ≤ q % (2 * s.width) := Int.emod_nonneg _ (by omega)
  have h2 : q % (2 * s.width) < 2 * s.width := Int.emod_lt_of_pos _ hm
  have h3 : 0 ≤ q / (2 * s.width) := Int.ediv_nonneg hq.1 (by omega)
  have h4 : q / (2 * s.width) < 2 * s.height :=
    Int.ediv_lt_of_lt_mul hm (by nlinarith [hq.2])
  have h5 := Int.emod_add_ediv q (2 * s.width)
  refine ⟨q % (2 * s.width) / 2, q / (2 * s.width) / 2, q % (2 * s.width) % 2,
    q / (2 * s.width) % 2, by omega, by omega, by omega, by omega, ?_⟩
  unfold raw_cell
  have e1 : 2 * (q % (2 * s.width) / 2) + q % (2 * s.width) % 2 = q % (2 * s.width) := by omega
  have e2 : 2 * (q / (2 * s.width) / 2) + q / (2 * s.width) % 2 = q / (2 * s.width) := by omega
  rw [e1, e2]
  linarith

theorem interior_pixels_nodup (s : State) : (interior_pixels s).Nodup := by
  unfold interior_pixels
  apply nodup_flatMap_of_key _ _ (forRange_nodup _ _)
  · intro y _
    refine List.Nodup.map ?_ (forRange_nodup _ _)
    intro a b h
    exact (Prod.mk.inj h).1
  · intro y _ y' _ b hb hb'
    simp only [List.mem_map] at hb hb'
    obtain ⟨x, -, rfl⟩ := hb
    obtain ⟨x', -, h⟩ := hb'
    exact ((Prod.mk.inj h).2).symm

theorem conv_indices_nodup (s : State) (dx dy : Int)
    (hdx : dx = 0 ∨ dx = 1) (hdy : dy = 0 ∨ dy = 1) :
    ((recover_bayer_channel_writes s dx dy).map Prod.fst).Nodup := by
  rw [recover_bayer_channel_writes_eq_map, List.map_map]
  refine List.Nodup.map_on ?_ (interior_pixels_nodup s)
  rintro ⟨x, y⟩ hp ⟨x', y'⟩ hp' h
  rw [mem_interior_pixels] at hp hp'
  have := raw_cell_inj s x y dx dy x' y' dx dy (by omega) (by omega) hdx hdy hdx hdy h
  obtain ⟨rfl, rfl, -, -⟩ := this
  rfl

theorem mem_conv_indices (s : State) (dx dy q : Int) :
    q ∈ (recover_bayer_channel_writes s dx dy).map Prod.fst ↔
      ∃ y, (1 ≤ y ∧ y < s.height - 1) ∧ ∃ x, (1 ≤ x ∧ x < s.width - 1) ∧
        q = raw_cell s x y dx dy := by
  simp only [List.mem_map, mem_recover_bayer_channel_writes]
  constructor
  · rintro ⟨w, ⟨y, hy, x, hx, rfl⟩, rfl⟩; exact ⟨y, hy, x, hx, rfl⟩
  · rintro ⟨y, hy, x, hx, rfl⟩; exact ⟨_, ⟨y, hy, x, hx, rfl⟩, rfl⟩

theorem mem_border_indices (s : State) (q : Int) :
    q ∈ (fill_border_writes s).map Prod.fst ↔
      ∃ y, (0 ≤ y ∧ y < s.height) ∧ ∃ x, (0 ≤ x ∧ x < s.width) ∧ on_border s x y ∧
        ∃ dx dy : Int, (dx = 0 ∨ dx = 1) ∧ (dy = 0 ∨ dy = 1) ∧ q = raw_cell s x y dx dy := by
  simp only [List.mem_map, mem_fill_border_writes]
  constructor
  · rintro ⟨w, ⟨y, hy, x, hx, hb, hw⟩, rfl⟩
    refine ⟨y, hy, x, hx, hb, ?_⟩
    rcases hw with rfl | rfl | rfl | rfl
    · exact ⟨0, 0, Or.inl rfl, Or.inl rfl, rfl⟩
    · exact ⟨1, 1, Or.inr rfl, Or.inr rfl, rfl⟩
    · exact ⟨0, 1, Or.inl rfl, Or.inr rfl, rfl⟩
    · exact ⟨1, 0, Or.inr rfl, Or.inl rfl, rfl⟩
  · rintro ⟨y, hy, x, hx, hb, dx, dy, hdx, hdy, rfl⟩
    rcases hdx with rfl | rfl <;> rcases hdy with rfl | rfl
    · exact ⟨_, ⟨y, hy, x, hx, hb, Or.inl rfl⟩, rfl⟩
    · exact ⟨_, ⟨y, hy, x, hx, hb, Or.inr (Or.inr (Or.inl rfl))⟩, rfl⟩
    · exact ⟨_, ⟨y, hy, x, hx, hb, Or.inr (Or.inr (Or.inr rfl))⟩, rfl⟩
    · exact ⟨_, ⟨y, hy, x, hx, hb, Or.inr (Or.inl rfl)⟩, rfl⟩

theorem border_indices_nodup (s : State) : ((fill_border_writes s).map Prod.fst).Nodup := by
  unfold fill_border_writes
  simp only [List.map_flatMap]
  have hmem : ∀ (x y q : Int),
      q ∈ List.map Prod.fst
        (if x = 0 ∨ y = 0 ∨ x = s.width-1 ∨ y = s.height-1 then
          [ (2*x   + (2*y  ) * (2*s.width), s.rgbB (3*x+1 + y*s.width*3)),
            (2*x+1 + (2*y+1) * (2*s.width), s.rgbA (3*x+1 + y*s.width*3)),
            (2*x   + (2*y+1) * (2*s.width), s.rgbB (3*x   + y*s.width*3)),
            (2*x+1 + (2*y  ) * (2*s.width), s.rgbB (3*x+2 + y*s.width*3)) ]
        else []) →
      ∃ dx dy : Int, (dx = 0 ∨ dx = 1) ∧ (dy = 0 ∨ dy = 1) ∧ q = raw_cell s x y dx dy := by
    intro x y q hq
    unfold raw_cell
    split_ifs at hq
    · simp only [List.map_cons, List.map_nil, List.mem_cons, List.mem_singleton,
        List.not_mem_nil, or_false] at hq
      rcases hq with rfl | rfl | rfl | rfl
      · exact ⟨0, 0, Or.inl rfl, Or.inl rfl, by ring⟩
      · exact ⟨1, 1, Or.inr rfl, Or.inr rfl, rfl⟩
      · exact ⟨0, 1, Or.inl rfl, Or.inr rfl, by ring⟩
      · exact ⟨1, 0, Or.inr rfl, Or.inl rfl, by ring⟩
    · simp at hq
  apply nodup_flatMap_of_key _ _ (forRange_nodup _ _)
  · intro y _
    apply nodup_flatMap_of_key _ _ (forRange_nodup _ _)
    · intro x hx
      rw [mem_forRange] at hx
      split_ifs
      · have c := fun dx dy dx' dy' hdx hdy hdx' hdy' h =>
          raw_cell_inj s x y dx dy x y dx' dy' hx hx hdx hdy hdx' hdy' h
        unfold raw_cell at c
        simp only [List.map_cons, List.map_nil, List.nodup_cons, List.mem_cons,
          List.mem_singleton, List.not_mem_nil, or_false, not_or, List.nodup_nil, and_true]
        refine ⟨⟨?_, ?_, ?_⟩, ⟨?_, ?_⟩, ?_⟩
        · intro h
          have := c 0 0 1 1 (Or.inl rfl) (Or.inl rfl) (Or.inr rfl) (Or.inr rfl) (by linarith)
          omega
        · intro h
          have := c 0 0 0 1 (Or.inl rfl) (Or.inl rfl) (Or.inl rfl) (Or.inr rfl) (by linarith)
          omega
        · intro h
          have := c 0 0 1 0 (Or.inl rfl) (Or.inl rfl) (Or.inr rfl) (Or.inl rfl) (by linarith)
          omega
        · intro h
          have := c 1 1 0 1 (Or.inr rfl) (Or.inr rfl) (Or.inl rfl) (Or.inr rfl) (by linarith)
          omega
        · intro h
          have := c 1 1 1 0 (Or.inr rfl) (Or.inr rfl) (Or.inr rfl) (Or.inl rfl) (by linarith)
          omega
        · refine ⟨?_, fun h => h⟩
          intro h
          have := c 0 1 1 0 (Or.inl rfl) (Or.inr rfl) (Or.inr rfl) (Or.inl rfl) (by linarith)
          omega
      · simp
    · intro x hx x' hx' q hq hq'
      rw [mem_forRange] at hx hx'
      obtain ⟨dx, dy, hdx, hdy, rfl⟩ := hmem x y q hq
      obtain ⟨dx', dy', hdx', hdy', h⟩ := hmem x' y _ hq'
      exact (raw_cell_inj s x y dx dy x' y dx' dy' hx hx' hdx hdy hdx' hdy' h).1
  · intro y _ y' _ q hq hq'
    simp only [List.mem_flatMap, mem_forRange] at hq hq'
    obtain ⟨x, hx, hq⟩ := hq
    obtain ⟨x', hx', hq'⟩ := hq'
    obtain ⟨dx, dy, hdx, hdy, rfl⟩ := hmem x y q hq
    obtain ⟨dx', dy', hdx', hdy', h⟩ := hmem x' y' _ hq'
    exact (raw_cell_inj s x y dx dy x' y' dx' dy' hx hx' hdx hdy hdx' hdy' h).2.1


theorem conv_conv_disjoint (s : State) (dx dy dx' dy' : Int)
    (hdx : dx = 0 ∨ dx = 1) (hdy : dy = 0 ∨ dy = 1)
    (hdx' : dx' = 0 ∨ dx' = 1) (hdy' : dy' = 0 ∨ dy' = 1) (hne : dx ≠ dx' ∨ dy ≠ dy') :
    List.Disjoint ((recover_bayer_channel_writes s dx dy).map Prod.fst)
      ((recover_bayer_channel_writes s dx' dy').map Prod.fst) := by
  rw [List.disjoint_left]
  intro q hq hq'
  obtain ⟨y, hy, x, hx, rfl⟩ := (mem_conv_indices s dx dy q).mp hq
  obtain ⟨y', hy', x', hx', h⟩ := (mem_conv_indices s dx' dy' _).mp hq'
  have := raw_cell_inj s x y dx dy x' y' dx' dy' (by omega) (by omega) hdx hdy hdx' hdy' h
  omega

theorem conv_border_disjoint (s : State) (dx dy : Int)
    (hdx : dx = 0 ∨ dx = 1) (hdy : dy = 0 ∨ dy = 1) :
    List.Disjoint ((recover_bayer_channel_writes s dx dy).map Prod.fst)
      ((fill_border_writes s).map Prod.fst) := by
  rw [List.disjoint_left]
  intro q hq hq'
  obtain ⟨y, hy, x, hx, rfl⟩ := (mem_conv_indices s dx dy q).mp hq
  obtain ⟨y', hy', x', hx', hb, dx', dy', hdx', hdy', h⟩ := (mem_border_indices s _).mp hq'
  have := raw_cell_inj s x y dx dy x' y' dx' dy' (by omega) hx' hdx hdy hdx' hdy' h
  unfold on_border at hb
  omega

theorem all_indices_nodup (s : State) : ((recover_raw_data_writes s).map Prod.fst).Nodup := by
  unfold recover_raw_data_writes
  simp only [List.map_append]
  have b0 : (0 : Int) = 0 ∨ (0 : Int) = 1 := Or.inl rfl
  have b1 : (1 : Int) = 0 ∨ (1 : Int) = 1 := Or.inr rfl
  refine List.nodup_append.mpr ⟨List.nodup_append.mpr ⟨List.nodup_append.mpr
    ⟨List.nodup_append.mpr ⟨conv_indices_nodup s 0 0 b0 b0, conv_indices_nodup s 0 1 b0 b1,
      conv_conv_disjoint s 0 0 0 1 b0 b0 b0 b1 (by decide)⟩,
     conv_indices_nodup s 1 0 b1 b0, ?_⟩, conv_indices_nodup s 1 1 b1 b1, ?_⟩,
    border_indices_nodup s, ?_⟩
  · rw [List.disjoint_left]
    intro q hq
    rcases List.mem_append.mp hq with h | h
    · exact List.disjoint_left.mp (conv_conv_disjoint s 0 0 1 0 b0 b0 b1 b0 (by decide)) h
    · exact List.disjoint_left.mp (conv_conv_disjoint s 0 1 1 0 b0 b1 b1 b0 (by decide)) h
  · rw [List.disjoint_left]
    intro q hq
    rcases List.mem_append.mp hq with h | h
    · rcases List.mem_append.mp h with h | h
      · exact List.disjoint_left.mp (conv_conv_disjoint s 0 0 1 1 b0 b0 b1 b1 (by decide)) h
      · exact List.disjoint_left.mp (conv_conv_disjoint s 0 1 1 1 b0 b1 b1 b1 (by decide)) h
    · exact List.disjoint_left.mp (conv_conv_disjoint s 1 0 1 1 b1 b0 b1 b1 (by decide)) h
  · rw [List.disjoint_left]
    intro q hq
    rcases List.mem_append.mp hq with h | h
    · rcases List.mem_append.mp h with h | h
      · rcases List.mem_append.mp h with h | h
        · exact List.disjoint_left.mp (conv_border_disjoint s 0 0 b0 b0) h
        · exact List.disjoint_left.mp (conv_border_disjoint s 0 1 b0 b1) h
      · exact List.disjoint_left.mp (conv_border_disjoint s 1 0 b1 b0) h
    · exact List.disjoint_left.mp (conv_border_disjoint s 1 1 b1 b1) h

theorem cell_mem_all_indices (s : State) (x y dx dy : Int)
    (hx : 0 ≤ x ∧ x < s.width) (hy : 0 ≤ y ∧ y < s.height)
    (hdx : dx = 0 ∨ dx = 1) (hdy : dy = 0 ∨ dy = 1) :
    raw_cell s x y dx dy ∈ (recover_raw_data_writes s).map Prod.fst := by
  unfold recover_raw_data_writes
  simp only [List.map_append, List.mem_append]
  by_cases hb : on_border s x y
  · right
    exact (mem_border_indices s _).mpr ⟨y, hy, x, hx, hb, dx, dy, hdx, hdy, rfl⟩
  · left
    have hi : (1 ≤ x ∧ x < s.width - 1) ∧ (1 ≤ y ∧ y < s.height - 1) := by
      unfold on_border at hb; omega
    have hm := (mem_conv_indices s dx dy (raw_cell s x y dx dy)).mpr ⟨y, hi.2, x, hi.1, rfl⟩
    rcases hdx with rfl | rfl <;> rcases hdy with rfl | rfl
    · exact Or.inl (Or.inl (Or.inl hm))
    · exact Or.inl (Or.inl (Or.inr hm))
    · exact Or.inl (Or.inr hm)
    · exact Or.inr hm

/-- C17: for `w >= 1` (and any `h`) the map `(x, y, dx, dy) -> 2x+dx + (2y+dy)*2w` is a
bijection from the cells of the tiles onto `0 .. 4wh-1`; `recover_raw_data`
assigns each of these indices exactly once, the convolution passes only the
cells of interior tiles and the border loop only the cells of border tiles,
so the border loop assigns no index that a convolution pass assigned, and the
resulting samples do not depend on the previous contents of `raw`. -/
theorem every_sample_assigned_once (s : State) (hw : 1 ≤ s.width) :
    (∀ x y dx dy x' y' dx' dy' : Int, 0 ≤ x ∧ x < s.width → 0 ≤ x' ∧ x' < s.width →
      dx = 0 ∨ dx = 1 → dy = 0 ∨ dy = 1 → dx' = 0 ∨ dx' = 1 → dy' = 0 ∨ dy' = 1 →
      raw_cell s x y dx dy = raw_cell s x' y' dx' dy' →
      x = x' ∧ y = y' ∧ dx = dx' ∧ dy = dy') ∧
    (∀ x y dx dy : Int, 0 ≤ x ∧ x < s.width → 0 ≤ y ∧ y < s.height →
      dx = 0 ∨ dx = 1 → dy = 0 ∨ dy = 1 →
      0 ≤ raw_cell s x y dx dy ∧ raw_cell s x y dx dy < 4 * s.width * s.height) ∧
    (∀ q : Int, 0 ≤ q ∧ q < 4 * s.width * s.height →
      ∃ x y dx dy : Int, (0 ≤ x ∧ x < s.width) ∧ (0 ≤ y ∧ y < s.height) ∧
        (dx = 0 ∨ dx = 1) ∧ (dy = 0 ∨ dy = 1) ∧ raw_cell s x y dx dy = q) ∧
    (∀ q : Int, 0 ≤ q ∧ q < 4 * s.width * s.height →
      ((recover_raw_data_writes s).map Prod.fst).count q = 1) ∧
    (∀ dx dy : Int, dx = 0 ∨ dx = 1 → dy = 0 ∨ dy = 1 →
      ∀ a ∈ recover_bayer_channel_writes s dx dy,
        (∃ y, (1 ≤ y ∧ y < s.height - 1) ∧ ∃ x, (1 ≤ x ∧ x < s.width - 1) ∧
          a.1 = raw_cell s x y dx dy) ∧
        ∀ b ∈ fill_border_writes s, a.1 ≠ b.1) ∧
    (∀ b ∈ fill_border_writes s,
      ∃ y, (0 ≤ y ∧ y < s.height) ∧ ∃ x, (0 ≤ x ∧ x < s.width) ∧
        (x = 0 ∨ y = 0 ∨ x = s.width - 1 ∨ y = s.height - 1) ∧
        ∃ dx dy : Int, (dx = 0 ∨ dx = 1) ∧ (dy = 0 ∨ dy = 1) ∧ b.1 = raw_cell s x y dx dy) ∧
    (∀ (r' : Int → Int) (q : Int), 0 ≤ q ∧ q < 4 * s.width * s.height →
      (recover_raw_data ⟨s.rgbA, s.rgbB, r', s.width, s.height⟩).raw q =
        (recover_raw_data s).raw q) := by
  refine ⟨?_, ?_, cell_of_index s hw, ?_, ?_, ?_, ?_⟩
  · intro x y dx dy x' y' dx' dy' hx hx' hdx hdy hdx' hdy' h
    exact raw_cell_inj s x y dx dy x' y' dx' dy' hx hx' hdx hdy hdx' hdy' h
  · intro x y dx dy hx hy hdx hdy
    exact raw_index_bound s.width s.height (2*x+dx) (2*y+dy) (by omega) (by omega)
  · intro q hq
    obtain ⟨x, y, dx, dy, hx, hy, hdx, hdy, rfl⟩ := cell_of_index s hw q hq
    exact List.count_eq_one_of_mem (all_indices_nodup s)
      (cell_mem_all_indices s x y dx dy hx hy hdx hdy)
  · intro dx dy hdx hdy a ha
    have hm : a.1 ∈ (recover_bayer_channel_writes s dx dy).map Prod.fst :=
      List.mem_map_of_mem _ ha
    refine ⟨(mem_conv_indices s dx dy a.1).mp hm, ?_⟩
    intro b hb hab
    exact List.disjoint_left.mp (conv_border_disjoint s dx dy hdx hdy) hm
      (hab ▸ List.mem_map_of_mem _ hb)
  · intro b hb
    exact (mem_border_indices s b.1).mp (List.mem_map_of_mem _ hb)
  · intro r' q hq
    obtain ⟨x, y, dx, dy, hx, hy, hdx, hdy, rfl⟩ := cell_of_index s hw q hq
    have h1 := recover_raw_data_raw s x y dx dy hx hy hdx hdy
    have h2 := recover_raw_data_raw ⟨s.rgbA, s.rgbB, r', s.width, s.height⟩ x y dx dy hx hy
      hdx hdy
    rw [h1]
    exact h2

/-- C17 at the 3x3 frame pair `grayState`. -/
theorem every_sample_assigned_once_witness :
    (∀ q : Int, 0 ≤ q ∧ q < 4 * grayState.width * grayState.height →
      ((recover_raw_data_writes grayState).map Prod.fst).count q = 1) ∧
    (∀ (r' : Int → Int) (q : Int), 0 ≤ q ∧ q < 4 * grayState.width * grayState.height →
      (recover_raw_data ⟨grayState.rgbA, grayState.rgbB, r', grayState.width,
        grayState.height⟩).raw q = (recover_raw_data grayState).raw q) :=
  ⟨(every_sample_assigned_once grayState (by decide)).2.2.2.1,
   (every_sample_assigned_once grayState (by decide)).2.2.2.2.2.2⟩


/-! ## Claims on the uniform gray scenario -/

theorem convert_to_linear_apply (pre : Int → Dbl) (raw : Int → Int) (w h i : Int)
    (hi : 0 ≤ i ∧ i < w * h) : convert_to_linear pre raw w h i = lut pre (raw i) := by
  unfold convert_to_linear
  rw [foldl_pointwise (fun v => store16 (lut pre v)) _ (forRange_nodup _ _),
    if_pos ((mem_forRange _ _ _).mpr hi)]
  have := lut_range pre (raw i)
  exact store16_of_range _ (by omega)

theorem exact_sum_uniform (s : State) (g ch c x y : Int)
    (hg : ∀ i, s.rgbA i = g ∧ s.rgbB i = g) :
    exact_sum s ch c x y = g * kernel_set_sum ch c := by
  have hrgb : ∀ k i, rgb s k i = g := by
    intro k i
    unfold rgb
    split_ifs
    · exact (hg i).1
    · exact (hg i).2
  unfold exact_sum kernel_set_sum
  simp only [hrgb, forRange_0_2, forRange_0_3, List.map, List.sum_cons, List.sum_nil]
  ring

theorem conv_value_uniform_gray (s : State) (x y dx dy : Int)
    (hg : ∀ i, s.rgbA i = 32768 ∧ s.rgbB i = 32768)
    (hdx : dx = 0 ∨ dx = 1) (hdy : dy = 0 ∨ dy = 1) :
    conv_value s x y dx dy = 4 * kernel_set_sum (dx + 2*dy) (if x % 2 = 0 then 1 else 0) := by
  unfold conv_value
  rw [pixel_sum_eq, exact_sum_uniform s 32768 _ _ x y hg, bayer_channel_eq dx dy hdx hdy,
    column_parity_eq]
  obtain ⟨h00, h01, h10, h11, h20, h21, h30, h31⟩ := kernel_set_sum_values
  rcases hdx with rfl | rfl <;> rcases hdy with rfl | rfl <;> split_ifs <;>
    simp only [mul_zero, mul_one, add_zero, zero_add, Int.reduceAdd, Int.reduceMul,
      h00, h01, h10, h11, h20, h21, h30, h31] <;> decide

theorem rpow_25_13_bounds (b lo hi : ℝ) (hb : 0 ≤ b) (hhi : 0 ≤ hi)
    (h1 : lo ^ 13 < b ^ 25) (h2 : b ^ 25 < hi ^ 13) :
    lo < b ^ ((25 : ℝ) / 13) ∧ b ^ ((25 : ℝ) / 13) < hi := by
  have ht0 : (0 : ℝ) ≤ b ^ ((25 : ℝ) / 13) := Real.rpow_nonneg hb _
  have ht13 : (b ^ ((25 : ℝ) / 13)) ^ 13 = b ^ 25 := by
    calc (b ^ ((25 : ℝ) / 13)) ^ 13
        = (b ^ ((25 : ℝ) / 13)) ^ ((13 : ℕ) : ℝ) := (Real.rpow_natCast _ 13).symm
      _ = b ^ ((25 : ℝ) / 13 * ((13 : ℕ) : ℝ)) := (Real.rpow_mul hb _ _).symm
      _ = b ^ ((25 : ℕ) : ℝ) := by norm_num
      _ = b ^ 25 := Real.rpow_natCast _ 25
  constructor
  · by_contra h
    have h3 := pow_le_pow_left₀ ht0 (not_lt.mp h) 13
    rw [ht13] at h3
    linarith
  · by_contra h
    have h3 := pow_le_pow_left₀ hhi (not_lt.mp h) 13
    rw [ht13] at h3
    linarith

theorem lut_of_near (pre : Int → Dbl) (i n : Int) (q : ℚ) (v : ℝ)
    (hp : pre i = Dbl.fin q) (hq : |(q : ℝ) - v| ≤ 1 / 10)
    (hn : 0 ≤ n ∧ n < 4095) (hv : (n : ℝ) + 1 / 10 ≤ v ∧ v < (n : ℝ) + 9 / 10) :
    lut pre i = n := by
  rw [abs_le] at hq
  have hq1 : ((n : ℚ) : ℝ) ≤ (q : ℝ) := by push_cast; linarith
  have hq2 : (q : ℝ) < (((n : ℚ) + 1 : ℚ) : ℝ) := by push_cast; linarith
  have hq1' : (n : ℚ) ≤ q := by exact_mod_cast hq1
  have hq2' : q < (n : ℚ) + 1 := by exact_mod_cast hq2
  have hn0 : (0 : ℚ) ≤ (n : ℚ) := by exact_mod_cast hn.1
  have hn1 : (n : ℚ) + 1 ≤ 4095 := by exact_mod_cast (show n + 1 ≤ 4095 by omega)
  rw [lut_eq, hp]
  simp only
  rw [if_neg (by linarith), if_neg (by linarith), Int.floor_eq_iff]
  exact ⟨hq1', hq2'⟩

set_option maxRecDepth 100000 in
theorem grayState_interior_sample :
    (recover_raw_data grayState).raw (2*1+0 + (2*1+0) * (2*grayState.width)) = 32836 := by
  decide

/-- C11, counterexample: in the 3x3 uniform gray pair the filter bank leaves
32836 at raw position (2,2), and the linearised sample there is 1319 while the
table entry for input 32768 is 1315, for every double evaluation of the
table formula that is within 0.1 of its exact value at 32768 and at 32836. -/
theorem uniform_gray_not_uniform :
    (∀ i, grayState.rgbA i = 32768 ∧ grayState.rgbB i = 32768) ∧
    (recover_raw_data grayState).raw (2*1+0 + (2*1+0) * (2*grayState.width)) = 32836 ∧
    ∀ (pre : Int → Dbl) (q1 q2 : ℚ),
      pre 32768 = Dbl.fin q1 →
      |(q1 : ℝ) - (((32768 : ℝ) / 65535 * (235 - 16) / 255 + 16 / 255) ^ ((1 : ℝ) / 0.52)
        * 4095 / 0.85 + 128 - 45)| ≤ 1 / 10 →
      pre 32836 = Dbl.fin q2 →
      |(q2 : ℝ) - (((32836 : ℝ) / 65535 * (235 - 16) / 255 + 16 / 255) ^ ((1 : ℝ) / 0.52)
        * 4095 / 0.85 + 128 - 45)| ≤ 1 / 10 →
      lut pre 32768 = 1315 ∧
      convert_to_linear pre (recover_raw_data grayState).raw (2*grayState.width)
        (2*grayState.height) (2*1+0 + (2*1+0) * (2*grayState.width)) = 1319 := by
  refine ⟨fun i => ⟨rfl, rfl⟩, grayState_interior_sample, ?_⟩
  intro pre q1 q2 hp1 hq1 hp2 hq2
  have hexp : (1 : ℝ) / 0.52 = 25 / 13 := by norm_num
  have hb1 : ((32768 : ℝ) / 65535 * (235 - 16) / 255 + 16 / 255) = 2741584 / 5570475 := by
    norm_num
  have hb2 : ((32836 : ℝ) / 65535 * (235 - 16) / 255 + 16 / 255) = 915516 / 1856825 := by
    norm_num
  rw [hb1, hexp] at hq1
  rw [hb2, hexp] at hq2
  obtain ⟨l1, u1⟩ := rpow_25_13_bounds (2741584 / 5570475) (25577 / 100000) (25583 / 100000)
    (by norm_num) (by norm_num) (by norm_num) (by norm_num)
  obtain ⟨l2, u2⟩ := rpow_25_13_bounds (915516 / 1856825) (25667 / 100000) (25672 / 100000)
    (by norm_num) (by norm_num) (by norm_num) (by norm_num)
  constructor
  · refine lut_of_near pre 32768 1315 q1 _ hp1 hq1 (by decide) ⟨?_, ?_⟩
    · norm_num; linarith
    · norm_num; linarith
  · rw [convert_to_linear_apply pre _ _ _ _ (by decide), grayState_interior_sample]
    refine lut_of_near pre 32836 1319 q2 _ hp2 hq2 (by decide) ⟨?_, ?_⟩
    · norm_num; linarith
    · norm_num; linarith

/-- C11, amended: for a uniform gray pair (every sample of both frames
32768), after `recover_raw_data` and `convert_to_linear` every sample of a
border tile is the table entry for input 32768, and every sample of an
interior tile is the table entry for input `4 * S`, where `S` is the sum of
the 54 coefficients of the kernel set used (`32768 * S / 8192`, a value
between 32812 and 32852). -/
theorem uniform_gray_result (pre : Int → Dbl) (s : State) (x y dx dy : Int)
    (hg : ∀ i, s.rgbA i = 32768 ∧ s.rgbB i = 32768)
    (hx : 0 ≤ x ∧ x < s.width) (hy : 0 ≤ y ∧ y < s.height)
    (hdx : dx = 0 ∨ dx = 1) (hdy : dy = 0 ∨ dy = 1) :
    convert_to_linear pre (recover_raw_data s).raw (2*s.width) (2*s.height)
        (2*x+dx + (2*y+dy) * (2*s.width)) =
      (if x = 0 ∨ y = 0 ∨ x = s.width - 1 ∨ y = s.height - 1 then lut pre 32768
       else lut pre (4 * kernel_set_sum (dx + 2*dy) (if x % 2 = 0 then 1 else 0))) ∧
    32812 ≤ 4 * kernel_set_sum (dx + 2*dy) (if x % 2 = 0 then 1 else 0) ∧
    4 * kernel_set_sum (dx + 2*dy) (if x % 2 = 0 then 1 else 0) ≤ 32852 := by
  have hidx := raw_index_bound s.width s.height (2*x+dx) (2*y+dy) (by omega) (by omega)
  have e : 2 * s.width * (2 * s.height) = 4 * s.width * s.height := by ring
  constructor
  · rw [convert_to_linear_apply pre _ _ _ _ (by rw [e]; exact hidx)]
    have h := recover_raw_data_raw s x y dx dy hx hy hdx hdy
    unfold raw_cell at h
    rw [h]
    by_cases hb : on_border s x y
    · have hb' : x = 0 ∨ y = 0 ∨ x = s.width - 1 ∨ y = s.height - 1 := hb
      rw [if_pos hb, if_pos hb']
      have hv : border_value s x y dx dy = 32768 := by
        unfold border_value
        split_ifs
        · exact (hg _).2
        · exact (hg _).1
        · exact (hg _).2
        · exact (hg _).2
      rw [hv]
      rfl
    · have hb' : ¬ (x = 0 ∨ y = 0 ∨ x = s.width - 1 ∨ y = s.height - 1) := hb
      rw [if_neg hb, if_neg hb', conv_value_uniform_gray s x y dx dy hg hdx hdy]
  · obtain ⟨h00, h01, h10, h11, h20, h21, h30, h31⟩ := kernel_set_sum_values
    rcases hdx with rfl | rfl <;> rcases hdy with rfl | rfl <;> split_ifs <;>
      simp only [mul_zero, mul_one, add_zero, zero_add, Int.reduceAdd, Int.reduceMul,
        h00, h01, h10, h11, h20, h21, h30, h31] <;> omega

/-- C11, amended claim at the 3x3 gray pair, interior cell (0,0) of pixel (1,1). -/
theorem uniform_gray_result_witness :
    convert_to_linear (fun _ => Dbl.fin 0) (recover_raw_data grayState).raw (2*grayState.width)
        (2*grayState.height) (2*1+0 + (2*1+0) * (2*grayState.width)) =
      (if (1 : Int) = 0 ∨ (1 : Int) = 0 ∨ (1 : Int) = grayState.width - 1 ∨
          (1 : Int) = grayState.height - 1 then lut (fun _ => Dbl.fin 0) 32768
       else lut (fun _ => Dbl.fin 0)
        (4 * kernel_set_sum (0 + 2*0) (if (1 : Int) % 2 = 0 then 1 else 0))) ∧
    32812 ≤ 4 * kernel_set_sum (0 + 2*0) (if (1 : Int) % 2 = 0 then 1 else 0) ∧
    4 * kernel_set_sum (0 + 2*0) (if (1 : Int) % 2 = 0 then 1 else 0) ≤ 32852 :=
  uniform_gray_result (fun _ => Dbl.fin 0) grayState 1 1 0 0 (fun _ => ⟨rfl, rfl⟩) (by decide)
    (by decide) (by decide) (by decide)

/-! ## Claims on the index arithmetic -/

theorem chk32_of_range (v : Int) (h : 0 ≤ v ∧ v ≤ 2147483647) : chk32 v = some v := by
  unfold chk32
  rw [if_pos]
  omega

theorem cadd_some (a b : Int) (h : 0 ≤ a + b ∧ a + b ≤ 2147483647) :
    cadd (some a) (some b) = some (a + b) := chk32_of_range _ h

theorem csub_some (a b : Int) (h : 0 ≤ a - b ∧ a - b ≤ 2147483647) :
    csub (some a) (some b) = some (a - b) := chk32_of_range _ h

theorem cmul_some (a b : Int) (h : 0 ≤ a * b ∧ a * b ≤ 2147483647) :
    cmul (some a) (some b) = some (a * b) := chk32_of_range _ h

/-- An `int` expression that is evaluated has its exact value. -/
theorem chk32_eq_some (v r : Int) (h : chk32 v = some r) :
    r = v ∧ -2147483648 ≤ v ∧ v ≤ 2147483647 := by
  unfold chk32 at h
  split_ifs at h with hv
  · exact ⟨(Option.some.inj h).symm, hv⟩

theorem width_fits (w h X Y : Int) (hX : 0 ≤ X ∧ X < w) (hY : 0 ≤ Y ∧ Y < h)
    (hsize : 4 * w * h ≤ 2147483647) : 4 * w ≤ 2147483647 ∧ 4 * h ≤ 2147483647 := by
  have h1 : 0 ≤ w * (h - 1) := mul_nonneg (by omega) (by omega)
  have h2 : 0 ≤ (w - 1) * h := mul_nonneg (by omega) (by omega)
  constructor
  · nlinarith
  · nlinarith

/-- A frame index is computed without overflow when `4*w*h` fits in an `int`. -/
theorem rgb_index32_eq (w h X Y p : Int) (hX : 0 ≤ X ∧ X < w) (hY : 0 ≤ Y ∧ Y < h)
    (hp : 0 ≤ p ∧ p < 3) (hsize : 4 * w * h ≤ 2147483647) :
    rgb_index32 w (some X) (some Y) p = some (X*3+p + Y*w*3) := by
  obtain ⟨hw4, hh4⟩ := width_fits w h X Y hX hY hsize
  have hb := rgb_index_bound w h X Y p hX hY hp
  have h1 : 0 ≤ Y * w := mul_nonneg hY.1 (by omega)
  have h2 : Y * w ≤ (h - 1) * w := mul_le_mul_of_nonneg_right (by omega) (by omega)
  have h3 : 0 ≤ w * h := mul_nonneg (by omega) (by omega)
  unfold rgb_index32
  rw [cmul_some X 3 (by omega), cadd_some (X*3) p (by omega),
    cmul_some Y w (by constructor <;> nlinarith),
    cmul_some (Y*w) 3 (by constructor <;> nlinarith),
    cadd_some (X*3+p) (Y*w*3) (by constructor <;> nlinarith)]

/-- A `raw` index is computed without overflow when `4*w*h` fits in an `int`. -/
theorem raw_index32_eq (w h x y dx dy : Int) (hx : 0 ≤ x ∧ x < w) (hy : 0 ≤ y ∧ y < h)
    (hdx : dx = 0 ∨ dx = 1) (hdy : dy = 0 ∨ dy = 1) (hsize : 4 * w * h ≤ 2147483647) :
    raw_index32 w x y dx dy = some (2*x+dx + (2*y+dy) * (2*w)) := by
  obtain ⟨hw4, hh4⟩ := width_fits w h x y hx hy hsize
  obtain ⟨hb1, hb2⟩ := raw_index_bound w h (2*x+dx) (2*y+dy) (by omega) (by omega)
  have h1 : 0 ≤ (2*y+dy) * (2*w) := mul_nonneg (by omega) (by omega)
  have h0 : 0 ≤ 2*x+dx := by omega
  unfold raw_index32
  rw [cmul_some 2 x (by omega), cadd_some (2*x) dx (by omega), cmul_some 2 y (by omega),
    cadd_some (2*y) dy (by omega), cmul_some 2 w (by omega),
    cmul_some (2*y+dy) (2*w) (by constructor <;> linarith),
    cadd_some (2*x+dx) ((2*y+dy) * (2*w)) (by constructor <;> linarith)]

theorem kernel_reads32_eq (s : State) (p x y : Int) (hx : 1 ≤ x ∧ x < s.width - 1)
    (hy : 1 ≤ y ∧ y < s.height - 1) (hp : 0 ≤ p ∧ p < 3)
    (hsize : 4 * s.width * s.height ≤ 2147483647) :
    kernel_reads32 s p x y = (kernel_reads s p x y).map some := by
  obtain ⟨hw4, hh4⟩ := width_fits s.width s.height x y (by omega) (by omega) hsize
  unfold kernel_reads32 kernel_reads
  simp only [List.map_cons, List.map_nil]
  rw [csub_some x 1 (by omega), cadd_some x 1 (by omega), csub_some y 1 (by omega),
    cadd_some y 0 (by omega), cadd_some y 1 (by omega),
    rgb_index32_eq s.width s.height (x-1) (y-1) p (by omega) (by omega) hp hsize,
    rgb_index32_eq s.width s.height x (y-1) p (by omega) (by omega) hp hsize,
    rgb_index32_eq s.width s.height (x+1) (y-1) p (by omega) (by omega) hp hsize,
    rgb_index32_eq s.width s.height (x-1) (y+0) p (by omega) (by omega) hp hsize,
    rgb_index32_eq s.width s.height x (y+0) p (by omega) (by omega) hp hsize,
    rgb_index32_eq s.width s.height (x+1) (y+0) p (by omega) (by omega) hp hsize,
    rgb_index32_eq s.width s.height (x-1) (y+1) p (by omega) (by omega) hp hsize,
    rgb_index32_eq s.width s.height x (y+1) p (by omega) (by omega) hp hsize,
    rgb_index32_eq s.width s.height (x+1) (y+1) p (by omega) (by omega) hp hsize]

theorem recover_bayer_channel_reads32_eq (s : State)
    (hsize : 4 * s.width * s.height ≤ 2147483647) :
    recover_bayer_channel_reads32 s =
      (recover_bayer_channel_reads s).map (fun r => (r.1, some r.2)) := by
  unfold recover_bayer_channel_reads32 recover_bayer_channel_reads
  simp only [List.map_flatMap, List.map_map]
  refine List.flatMap_congr fun y hy => List.flatMap_congr fun x hx =>
    List.flatMap_congr fun k _ => List.flatMap_congr fun p hp => ?_
  rw [kernel_reads32_eq s p x y ((mem_forRange _ _ _).mp hx) ((mem_forRange _ _ _).mp hy)
    ((mem_forRange _ _ _).mp hp) hsize, List.map_map]
  rfl

theorem border_read_plane32_eq (w h x y p : Int) (hx : 0 ≤ x ∧ x < w) (hy : 0 ≤ y ∧ y < h)
    (hp : 0 ≤ p ∧ p < 3) (hsize : 4 * w * h ≤ 2147483647) :
    border_read_plane32 w x y p = some (3*x+p + y*w*3) := by
  obtain ⟨hw4, hh4⟩ := width_fits w h x y hx hy hsize
  have hb := rgb_index_bound w h x y p hx hy hp
  have h1 : 0 ≤ y * w := mul_nonneg hy.1 (by omega)
  have h2 : y * w ≤ (h - 1) * w := mul_le_mul_of_nonneg_right (by omega) (by omega)
  have h3 : 0 ≤ w * h := mul_nonneg (by omega) (by omega)
  unfold border_read_plane32
  rw [cmul_some 3 x (by omega), cadd_some (3*x) p (by omega),
    cmul_some y w (by constructor <;> nlinarith),
    cmul_some (y*w) 3 (by constructor <;> nlinarith),
    cadd_some (3*x+p) (y*w*3) (by constructor <;> nlinarith)]

theorem border_read32_eq (w h x y : Int) (hx : 0 ≤ x ∧ x < w) (hy : 0 ≤ y ∧ y < h)
    (hsize : 4 * w * h ≤ 2147483647) :
    border_read32 w x y = some (3*x + y*w*3) := by
  obtain ⟨hw4, hh4⟩ := width_fits w h x y hx hy hsize
  have hb := rgb_index_bound w h x y 0 hx hy (by omega)
  have h1 : 0 ≤ y * w := mul_nonneg hy.1 (by omega)
  have h2 : y * w ≤ (h - 1) * w := mul_le_mul_of_nonneg_right (by omega) (by omega)
  have h3 : 0 ≤ w * h := mul_nonneg (by omega) (by omega)
  unfold border_read32
  rw [cmul_some 3 x (by omega), cmul_some y w (by constructor <;> nlinarith),
    cmul_some (y*w) 3 (by constructor <;> nlinarith),
    cadd_some (3*x) (y*w*3) (by constructor <;> nlinarith)]

theorem fill_border_reads32_eq (s : State) (hsize : 4 * s.width * s.height ≤ 2147483647) :
    fill_border_reads32 s = (fill_border_reads s).map (fun r => (r.1, some r.2)) := by
  unfold fill_border_reads32 fill_border_reads
  simp only [List.map_flatMap]
  refine List.flatMap_congr fun y hy => List.flatMap_congr fun x hx => ?_
  have hx' := (mem_forRange _ _ _).mp hx
  have hy' := (mem_forRange _ _ _).mp hy
  split_ifs
  · rw [border_read_plane32_eq s.width s.height x y 1 hx' hy' (by omega) hsize,
      border_read_plane32_eq s.width s.height x y 2 hx' hy' (by omega) hsize,
      border_read32_eq s.width s.height x y hx' hy' hsize]
    rfl
  · rfl

theorem recover_raw_data_reads32_eq (s : State)
    (hsize : 4 * s.width * s.height ≤ 2147483647) :
    recover_raw_data_reads32 s =
      (recover_raw_data_reads s).map (fun r => (r.1, some r.2)) := by
  unfold recover_raw_data_reads32 recover_raw_data_reads
  simp only [List.map_append]
  rw [recover_bayer_channel_reads32_eq s hsize, fill_border_reads32_eq s hsize]

theorem recover_bayer_channel_write_indices32_eq (s : State) (dx dy : Int)
    (hdx : dx = 0 ∨ dx = 1) (hdy : dy = 0 ∨ dy = 1)
    (hsize : 4 * s.width * s.height ≤ 2147483647) :
    recover_bayer_channel_write_indices32 s dx dy =
      (recover_bayer_channel_writes s dx dy).map (fun w => some w.1) := by
  unfold recover_bayer_channel_write_indices32 recover_bayer_channel_writes
  simp only [List.map_flatMap, List.map_map]
  refine List.flatMap_congr fun y hy => List.map_congr_left fun x hx => ?_
  have hx' := (mem_forRange _ _ _).mp hx
  have hy' := (mem_forRange _ _ _).mp hy
  rw [raw_index32_eq s.width s.height x y dx dy (by omega) (by omega) hdx hdy hsize]
  rfl

theorem fill_border_write_indices32_eq (s : State)
    (hsize : 4 * s.width * s.height ≤ 2147483647) :
    fill_border_write_indices32 s = (fill_border_writes s).map (fun w => some w.1) := by
  unfold fill_border_write_indices32 fill_border_writes
  simp only [List.map_flatMap]
  refine List.flatMap_congr fun y hy => List.flatMap_congr fun x hx => ?_
  have hx' := (mem_forRange _ _ _).mp hx
  have hy' := (mem_forRange _ _ _).mp hy
  obtain ⟨hw4, hh4⟩ := width_fits s.width s.height x y hx' hy' hsize
  have b00 := raw_index_bound s.width s.height (2*x) (2*y) (by omega) (by omega)
  have b11 := raw_index_bound s.width s.height (2*x+1) (2*y+1) (by omega) (by omega)
  have b01 := raw_index_bound s.width s.height (2*x) (2*y+1) (by omega) (by omega)
  have b10 := raw_index_bound s.width s.height (2*x+1) (2*y) (by omega) (by omega)
  have h0 : 0 ≤ (2*y) * (2*s.width) := mul_nonneg (by omega) (by omega)
  have h1 : 0 ≤ (2*y+1) * (2*s.width) := mul_nonneg (by omega) (by omega)
  split_ifs
  · rw [cmul_some 2 x (by omega), cmul_some 2 y (by omega), cmul_some 2 s.width (by omega),
      cadd_some (2*x) 1 (by omega), cadd_some (2*y) 1 (by omega),
      cmul_some (2*y) (2*s.width) (by constructor <;> linarith),
      cmul_some (2*y+1) (2*s.width) (by constructor <;> linarith),
      cadd_some (2*x) ((2*y) * (2*s.width)) (by constructor <;> linarith),
      cadd_some (2*x+1) ((2*y+1) * (2*s.width)) (by constructor <;> linarith),
      cadd_some (2*x) ((2*y+1) * (2*s.width)) (by constructor <;> linarith),
      cadd_some (2*x+1) ((2*y) * (2*s.width)) (by constructor <;> linarith)]
    rfl
  · rfl

theorem recover_raw_data_write_indices32_eq (s : State)
    (hsize : 4 * s.width * s.height ≤ 2147483647) :
    recover_raw_data_write_indices32 s =
      (recover_raw_data_writes s).map (fun w => some w.1) := by
  unfold recover_raw_data_write_indices32 recover_raw_data_writes
  simp only [List.map_append]
  rw [recover_bayer_channel_write_indices32_eq s 0 0 (Or.inl rfl) (Or.inl rfl) hsize,
    recover_bayer_channel_write_indices32_eq s 0 1 (Or.inl rfl) (Or.inr rfl) hsize,
    recover_bayer_channel_write_indices32_eq s 1 0 (Or.inr rfl) (Or.inl rfl) hsize,
    recover_bayer_channel_write_indices32_eq s 1 1 (Or.inr rfl) (Or.inr rfl) hsize,
    fill_border_write_indices32_eq s hsize]

/-- With frames of at least `3wh` samples and a `raw` buffer of at least `4wh`
samples, `4wh` fitting in an `int`, every access of `recover_raw_data` is
defined. -/
theorem accesses_defined_of_fits (s : State) (sizeA sizeB sizeRaw : Int)
    (hsize : 4 * s.width * s.height ≤ 2147483647)
    (hA : 3 * s.width * s.height ≤ sizeA) (hB : 3 * s.width * s.height ≤ sizeB)
    (hR : 4 * s.width * s.height ≤ sizeRaw) :
    accesses_defined s sizeA sizeB sizeRaw = true := by
  obtain ⟨hr, hwr⟩ := exact_indices_in_bounds s
  unfold accesses_defined
  rw [Bool.and_eq_true, List.all_eq_true, List.all_eq_true,
    recover_raw_data_reads32_eq s hsize, recover_raw_data_write_indices32_eq s hsize]
  constructor
  · intro r hr'
    obtain ⟨r0, hr0, rfl⟩ := List.mem_map.mp hr'
    obtain ⟨-, h1, h2⟩ := hr r0 hr0
    simp only [index_ok, decide_eq_true_eq]
    split_ifs <;> omega
  · intro a ha
    obtain ⟨w0, hw0, rfl⟩ := List.mem_map.mp ha
    obtain ⟨h1, h2⟩ := hwr w0 hw0
    simp only [index_ok, decide_eq_true_eq]
    omega

/-- C19, counterexample: for a frame pair of width and height 23171 the
border loop computes the index `2*x+1 + (2*y+1) * (2*width)` of the last
sample (`x = y = 23170`) with an overflow of `int`: the product is 2147534622
and the index `4wh - 1` is 2147580963, both above 2147483647. -/
theorem index_overflow_at_23171 :
    (1 ≤ bigState.width ∧ 1 ≤ bigState.height) ∧
    none ∈ recover_raw_data_write_indices32 bigState ∧
    ((2*23170+1) * (2*23171) : Int) = 2147534622 ∧
    (2*23170+1 + (2*23170+1) * (2*23171) : Int) = 4 * 23171 * 23171 - 1 ∧
    ¬ ((4 * 23171 * 23171 - 1 : Int) ≤ 2147483647) := by
  refine ⟨by decide, ?_, by decide, by decide, by decide⟩
  unfold recover_raw_data_write_indices32
  refine List.mem_append_right _ ?_
  unfold fill_border_write_indices32
  refine List.mem_flatMap.mpr ⟨23170, (mem_forRange _ _ _).mpr (by decide), ?_⟩
  refine List.mem_flatMap.mpr ⟨23170, (mem_forRange _ _ _).mpr (by decide), ?_⟩
  decide

/-- C19, amended: for `w, h >= 1` with `4*w*h <= 2147483647`, every index
expression of `recover_raw_data` and the size `width * height * 4` are
computed without `int` overflow; every index read from a frame is in
`0 .. 3wh-1` and every index assigned in `raw` is in `0 .. 4wh-1`.  The
indices are those of the exact-integer lists `recover_raw_data_reads` and
`recover_raw_data_writes`. -/
theorem accesses_in_bounds_int (s : State) (hw : 1 ≤ s.width) (hh : 1 ≤ s.height)
    (hsize : 4 * s.width * s.height ≤ 2147483647) :
    (∀ r ∈ recover_raw_data_reads32 s,
      ∃ i, r.2 = some i ∧ (r.1 = 0 ∨ r.1 = 1) ∧ 0 ≤ i ∧ i < 3 * s.width * s.height) ∧
    (∀ a ∈ recover_raw_data_write_indices32 s,
      ∃ i, a = some i ∧ 0 ≤ i ∧ i < 4 * s.width * s.height) ∧
    cmul (cmul (some s.width) (some s.height)) (some 4) = some (s.width * s.height * 4) ∧
    recover_raw_data_reads32 s = (recover_raw_data_reads s).map (fun r => (r.1, some r.2)) ∧
    recover_raw_data_write_indices32 s =
      (recover_raw_data_writes s).map (fun w => some w.1) := by
  obtain ⟨hr, hwr⟩ := exact_indices_in_bounds s
  have e1 := recover_raw_data_reads32_eq s hsize
  have e2 := recover_raw_data_write_indices32_eq s hsize
  have hwh : 0 ≤ s.width * s.height := mul_nonneg (by omega) (by omega)
  refine ⟨?_, ?_, ?_, e1, e2⟩
  · intro r hr'
    rw [e1] at hr'
    obtain ⟨r0, hr0, rfl⟩ := List.mem_map.mp hr'
    exact ⟨r0.2, rfl, hr r0 hr0⟩
  · intro a ha
    rw [e2] at ha
    obtain ⟨w0, hw0, rfl⟩ := List.mem_map.mp ha
    exact ⟨w0.1, rfl, hwr w0 hw0⟩
  · rw [cmul_some s.width s.height (by constructor <;> nlinarith),
      cmul_some (s.width * s.height) 4 (by constructor <;> nlinarith)]

set_option maxRecDepth 100000 in
/-- C19, amended claim at a 3x3 frame pair. -/
theorem accesses_in_bounds_int_witness :
    (1 ≤ grayState.width ∧ 1 ≤ grayState.height ∧
      4 * grayState.width * grayState.height ≤ 2147483647) ∧
    (∀ r ∈ recover_raw_data_reads32 grayState,
      ∃ i, r.2 = some i ∧ (r.1 = 0 ∨ r.1 = 1) ∧ 0 ≤ i ∧
        i < 3 * grayState.width * grayState.height) ∧
    (∀ a ∈ recover_raw_data_write_indices32 grayState,
      ∃ i, a = some i ∧ 0 ≤ i ∧ i < 4 * grayState.width * grayState.height) ∧
    cmul (cmul (some grayState.width) (some grayState.height)) (some 4) =
      some (grayState.width * grayState.height * 4) ∧
    recover_raw_data_reads32 grayState =
      (recover_raw_data_reads grayState).map (fun r => (r.1, some r.2)) ∧
    recover_raw_data_write_indices32 grayState =
      (recover_raw_data_writes grayState).map (fun w => some w.1) :=
  ⟨by decide, accesses_in_bounds_int grayState (by decide) (by decide) (by decide)⟩

/-! ## Claims on the input checks -/

theorem cadd_eq_some (a b : Option Int) (r : Int) (h : cadd a b = some r) :
    ∃ x y, a = some x ∧ b = some y ∧ r = x + y := by
  cases a with
  | none => cases h
  | some x =>
    cases b with
    | none => cases h
    | some y => exact ⟨x, y, rfl, rfl, (chk32_eq_some (x + y) r h).1⟩

theorem csub_eq_some (a b : Option Int) (r : Int) (h : csub a b = some r) :
    ∃ x y, a = some x ∧ b = some y ∧ r = x - y := by
  cases a with
  | none => cases h
  | some x =>
    cases b with
    | none => cases h
    | some y => exact ⟨x, y, rfl, rfl, (chk32_eq_some (x - y) r h).1⟩

theorem cmul_eq_some (a b : Option Int) (r : Int) (h : cmul a b = some r) :
    ∃ x y, a = some x ∧ b = some y ∧ r = x * y ∧ x * y ≤ 2147483647 := by
  cases a with
  | none => cases h
  | some x =>
    cases b with
    | none => cases h
    | some y =>
      exact ⟨x, y, rfl, rfl, (chk32_eq_some (x * y) r h).1, (chk32_eq_some (x * y) r h).2.2⟩

/-- The numbers of a header stay non-negative. -/
theorem header_step_nonneg (h : Header) (c : Int)
    (hd : 0 ≤ h.dim0 ∧ 0 ≤ h.dim1 ∧ 0 ≤ h.dim2) :
    0 ≤ (header_step h c).dim0 ∧ 0 ≤ (header_step h c).dim1 ∧ 0 ≤ (header_step h c).dim2 := by
  unfold header_step
  simp only
  split_ifs with h1 h2 h3 h4 h5
  all_goals first
    | exact hd
    | skip
  all_goals
    split
    · rename_i v hv
      obtain ⟨x, y, hx, hy, rfl⟩ := csub_eq_some _ _ _ hv
      obtain ⟨x1, y1, hx1, hy1, rfl⟩ := cadd_eq_some _ _ _ hx
      obtain ⟨x2, y2, hx2, hy2, rfl, -⟩ := cmul_eq_some _ _ _ hx1
      cases hy; cases hy1; cases hx2; cases hy2
      have hd0 : isdigit c = true := by assumption
      have hc : 48 ≤ c := by
        simp only [isdigit, decide_eq_true_eq] at hd0
        exact hd0.1
      unfold Header.setDim Header.dim
      simp only
      split_ifs <;> simp only <;> refine ⟨?_, ?_, ?_⟩ <;> omega
    · exact hd

theorem header_loop_nonneg (l : List Int) (h : Header)
    (hd : 0 ≤ h.dim0 ∧ 0 ≤ h.dim1 ∧ 0 ≤ h.dim2) :
    0 ≤ (header_loop h l).1.dim0 ∧ 0 ≤ (header_loop h l).1.dim1 ∧
      0 ≤ (header_loop h l).1.dim2 := by
  induction l generalizing h with
  | nil => exact hd
  | cons c rest ih =>
    unfold header_loop
    split_ifs
    · exact ih _ (header_step_nonneg h c hd)
    · exact hd

/-- A frame that `read_ppm` accepts has a non-negative width and height, and
its size in bytes `width * height * 2 * 3` fits in an `int`. -/
theorem read_ppm_ok_dims (f : List Int) (w h : Int) (a : Int → Int)
    (hr : read_ppm (some f) true = Outcome.ok (w, h, a)) :
    0 ≤ w ∧ 0 ≤ h ∧ w * h * 2 * 3 ≤ 2147483647 := by
  have hn := header_loop_nonneg (header_magic f).2 ⟨0, 0, 0, false, false, (header_magic f).1, 0, false⟩
    ⟨le_refl _, le_refl _, le_refl _⟩
  unfold read_ppm at hr
  simp only at hr
  split_ifs at hr
  split at hr
  · cases hr
  · rename_i n hn'
    split_ifs at hr
    injection hr with hr
    injection hr with hw hr
    injection hr with hh ha
    obtain ⟨x, y, hx, hy, -, hle⟩ := cmul_eq_some _ _ _ hn'
    obtain ⟨x1, y1, hx1, hy1, rfl, -⟩ := cmul_eq_some _ _ _ hx
    obtain ⟨x2, y2, hx2, hy2, rfl, -⟩ := cmul_eq_some _ _ _ hx1
    cases hy; cases hy1; cases hx2; cases hy2
    rw [← hw, ← hh]
    exact ⟨hn.1, hn.2.1, hle⟩

/-- The border loop reads sample `3*w*h - 2` of frame A (green of the last
pixel). -/
theorem last_read_of_frame_A (s : State) (hw : 1 ≤ s.width) (hh : 1 ≤ s.height) :
    (0, 3*(s.width-1)+1 + (s.height-1)*s.width*3) ∈ recover_raw_data_reads s := by
  unfold recover_raw_data_reads
  refine List.mem_append_right _ ?_
  unfold fill_border_reads
  refine List.mem_flatMap.mpr ⟨s.height-1, (mem_forRange _ _ _).mpr (by omega), ?_⟩
  refine List.mem_flatMap.mpr ⟨s.width-1, (mem_forRange _ _ _).mpr (by omega), ?_⟩
  rw [if_pos (Or.inr (Or.inr (Or.inl rfl)))]
  simp

set_option maxRecDepth 100000 in
/-- C5, counterexample: frame A is 2x2 and frame B is 1x1, yet no error is
reported: the filter bank runs with `width = height = 1` and fills `raw` from
both buffers.  Two frames of width and height 0 are accepted as well (no cell
of `raw` is assigned).  With a 1x1 frame A and a 2x2 frame B there is no error
either: the border loop reads frame A past its end. -/
theorem mismatched_frames_accepted :
    (∃ a, read_ppm (some file2x2) true = Outcome.ok (2, 2, a)) ∧
    (∃ b, read_ppm (some file1x1) true = Outcome.ok (1, 1, b)) ∧
    observe (load_and_recover (some file2x2) (some file1x1) (fun _ => 7)) =
      Outcome.ok (1, 1, [512, 768, 256, 2]) ∧
    observe (load_and_recover (some file0x0) (some file0x0) (fun _ => 7)) =
      Outcome.ok (0, 0, [7, 7, 7, 7]) ∧
    observe (load_and_recover (some file1x1) (some file2x2) (fun _ => 7)) =
      Outcome.undefined := by
  refine ⟨⟨_, rfl⟩, ⟨_, rfl⟩, ?_, ?_, ?_⟩
  · decide
  · decide
  · decide

/-- C5, amended: the conversion has no check on the dimensions.  Whenever
`read_ppm` accepts each of the two files (valid header, enough payload for
its own dimensions), the widths and heights are non-negative, possibly zero,
and no error is reported, whatever the dimensions of the two frames.  If
frame B has at most as many pixels as frame A, the filter bank runs on both
buffers with the width and height of frame B and `raw` is produced; if frame
B has more pixels than frame A, the filter bank reads frame A past its end
and the behaviour is undefined. -/
theorem load_and_recover_unchecked (fa fb : List Int) (raw0 : Int → Int)
    (wa ha wb hb : Int) (a b : Int → Int)
    (hA : read_ppm (some fa) true = Outcome.ok (wa, ha, a))
    (hB : read_ppm (some fb) true = Outcome.ok (wb, hb, b)) :
    (0 ≤ wa ∧ 0 ≤ ha ∧ 0 ≤ wb ∧ 0 ≤ hb) ∧
    (∀ e, load_and_recover (some fa) (some fb) raw0 ≠ Outcome.fail e) ∧
    (wb * hb ≤ wa * ha →
      load_and_recover (some fa) (some fb) raw0 =
        Outcome.ok (recover_raw_data ⟨a, b, raw0, wb, hb⟩)) ∧
    (wa * ha < wb * hb →
      load_and_recover (some fa) (some fb) raw0 = Outcome.undefined) := by
  obtain ⟨hwa, hha, -⟩ := read_ppm_ok_dims fa wa ha a hA
  obtain ⟨hwb, hhb, hnb⟩ := read_ppm_ok_dims fb wb hb b hB
  have hwh : 0 ≤ wb * hb := mul_nonneg hwb hhb
  have hsize : 4 * (⟨a, b, raw0, wb, hb⟩ : State).width *
      (⟨a, b, raw0, wb, hb⟩ : State).height ≤ 2147483647 := by
    show 4 * wb * hb ≤ 2147483647
    nlinarith
  have hload : load_and_recover (some fa) (some fb) raw0 =
      if accesses_defined ⟨a, b, raw0, wb, hb⟩ (wa * ha * 3) (wb * hb * 3) (wb * hb * 4) then
        Outcome.ok (recover_raw_data ⟨a, b, raw0, wb, hb⟩)
      else Outcome.undefined := by
    unfold load_and_recover
    rw [hA, hB]
    simp only
    rw [cmul_some wb hb (by constructor <;> nlinarith),
      cmul_some (wb * hb) 4 (by constructor <;> nlinarith)]
  refine ⟨⟨hwa, hha, hwb, hhb⟩, ?_, ?_, ?_⟩
  · intro e he
    rw [hload] at he
    split_ifs at he
  · intro hle
    rw [hload, if_pos]
    refine accesses_defined_of_fits _ _ _ _ hsize ?_ ?_ ?_
    · show 3 * wb * hb ≤ wa * ha * 3
      nlinarith
    · show 3 * wb * hb ≤ wb * hb * 3
      nlinarith
    · show 4 * wb * hb ≤ wb * hb * 4
      nlinarith
  · intro hlt
    have hpos : 0 < wb * hb := lt_of_le_of_lt (mul_nonneg hwa hha) hlt
    have hwb1 : 1 ≤ wb := by
      by_contra hc
      have h0 : wb = 0 := by omega
      rw [h0] at hpos
      simp at hpos
    have hhb1 : 1 ≤ hb := by
      by_contra hc
      have h0 : hb = 0 := by omega
      rw [h0] at hpos
      simp at hpos
    rw [hload, if_neg]
    intro hdef
    unfold accesses_defined at hdef
    rw [Bool.and_eq_true, List.all_eq_true, recover_raw_data_reads32_eq _ hsize] at hdef
    have hmem := last_read_of_frame_A ⟨a, b, raw0, wb, hb⟩ hwb1 hhb1
    have h1 := hdef.1 _ (List.mem_map.mpr ⟨_, hmem, rfl⟩)
    simp only [index_ok, if_pos, decide_eq_true_eq] at h1
    nlinarith [h1.2]

set_option maxRecDepth 100000 in
/-- C5, amended claim at a 2x2 frame A and a 1x1 frame B (the run completes)
and with the two files exchanged (frame A is read past its end). -/
theorem load_and_recover_unchecked_witness :
    (((0 : Int) ≤ 2 ∧ (0 : Int) ≤ 2 ∧ (0 : Int) ≤ 1 ∧ (0 : Int) ≤ 1) ∧
      (∀ e, load_and_recover (some file2x2) (some file1x1) (fun _ => 7) ≠ Outcome.fail e) ∧
      ((1 : Int) * 1 ≤ 2 * 2 →
        load_and_recover (some file2x2) (some file1x1) (fun _ => 7) =
          Outcome.ok (recover_raw_data
            ⟨buf16 (reverse_bytes_order (bytes_of (file2x2.drop 13)) 24),
             buf16 (reverse_bytes_order (bytes_of (file1x1.drop 13)) 6), fun _ => 7, 1, 1⟩)) ∧
      ((2 : Int) * 2 < 1 * 1 →
        load_and_recover (some file2x2) (some file1x1) (fun _ => 7) = Outcome.undefined)) ∧
    (((0 : Int) ≤ 1 ∧ (0 : Int) ≤ 1 ∧ (0 : Int) ≤ 2 ∧ (0 : Int) ≤ 2) ∧
      (∀ e, load_and_recover (some file1x1) (some file2x2) (fun _ => 7) ≠ Outcome.fail e) ∧
      ((2 : Int) * 2 ≤ 1 * 1 →
        load_and_recover (some file1x1) (some file2x2) (fun _ => 7) =
          Outcome.ok (recover_raw_data
            ⟨buf16 (reverse_bytes_order (bytes_of (file1x1.drop 13)) 6),
             buf16 (reverse_bytes_order (bytes_of (file2x2.drop 13)) 24), fun _ => 7, 2, 2⟩)) ∧
      ((1 : Int) * 1 < 2 * 2 →
        load_and_recover (some file1x1) (some file2x2) (fun _ => 7) = Outcome.undefined)) :=
  ⟨load_and_recover_unchecked file2x2 file1x1 (fun _ => 7) 2 2 1 1 _ _ rfl rfl,
   load_and_recover_unchecked file1x1 file2x2 (fun _ => 7) 1 1 2 2 _ _ rfl rfl⟩

end Hdmi4k
